import Mathlib

/-!
# Verification of the bpl-plus interpreter against its specification

Shallow embedding of the bpl-plus sources (Go) in Lean 4:

* `lexer/lexer.go`, `lexer/token.go` — the lexer (`Lexer`, `nextToken`, …);
* `interpreter/interpreter.go` — values, environments, control-flow
  signals, the tree-walking evaluator, imports, file handles, builtins.

Modelling conventions (stated once, used throughout):

* Go `float64` numbers are modelled as rationals `ℚ` (exact arithmetic);
  claims that hinge on IEEE-754 bit-level behaviour are treated separately.
* Go maps (`map[string]Value`) are modelled as association lists with
  distinct keys; `for k := range m` enumerates those keys (order is
  irrelevant at every use site in the source, which sorts them).
* Containers have reference semantics in the source (`*ArrayObject`,
  `*MapObject`); the embedding uses an explicit heap of array and map
  objects, and a `Value` holds an index into that heap.
* Host I/O (stdout, stdin, the filesystem) is modelled by explicit fields
  of the interpreter state.
-/

set_option maxHeartbeats 1000000

namespace BplPlus

/-! ## Lexer: token model (`lexer/token.go`) -/

/-- Token kinds, one constructor per `TokenType` constant in `token.go`.
Note the source has no token kind for `#`: there is no `HASH` constant. -/
inductive TokType where
  | illegal | eof | newline
  | ident | number | strLit
  | printKw | ifKw | elseKw | endKw | whileKw | forKw | toKw | stepKw
  | functionKw | returnKw | trueKw | falseKw
  | eachKw | inKw
  | andKw | orKw | notKw
  | assign | plus | minus | star | slash
  | lparen | rparen | lbracket | rbracket | lbrace | rbrace | colon | comma
  | eq | neq | lt | gt | lte | gte
  deriving DecidableEq, Repr

/-- `Token` from `token.go`: kind, lexeme, 1-based line and column. -/
structure Token where
  type : TokType
  lexeme : String
  line : Nat
  col : Nat
  deriving DecidableEq, Repr

/-- `LookupIdent` from `token.go`: keywords in lower, UPPER and
Capitalized forms; everything else is an identifier. -/
def LookupIdent (ident : String) : TokType :=
  match ident with
  | "print" | "PRINT" | "Print" => .printKw
  | "if" | "IF" | "If" => .ifKw
  | "else" | "ELSE" | "Else" => .elseKw
  | "end" | "END" | "End" => .endKw
  | "while" | "WHILE" | "While" => .whileKw
  | "for" | "FOR" | "For" => .forKw
  | "to" | "TO" | "To" => .toKw
  | "step" | "STEP" | "Step" => .stepKw
  | "function" | "FUNCTION" | "Function" => .functionKw
  | "return" | "RETURN" | "Return" => .returnKw
  | "true" | "TRUE" | "True" => .trueKw
  | "false" | "FALSE" | "False" => .falseKw
  | "each" | "EACH" | "Each" => .eachKw
  | "in" | "IN" | "In" => .inKw
  | "and" | "AND" | "And" => .andKw
  | "or" | "OR" | "Or" => .orKw
  | "not" | "NOT" | "Not" => .notKw
  | _ => .ident

/-! ## Lexer: state and scanning (`lexer/lexer.go`) -/

/-- Lexer state: code-point sequence, position, 1-based line/column.
`lexer.New` normalises CRLF and CR to LF before storing `src`. -/
structure Lexer where
  src : List Char
  pos : Nat
  line : Nat
  col : Nat
  deriving DecidableEq, Repr

/-- CRLF/CR → LF normalisation done by `lexer.New`. -/
def normalizeNewlines : List Char → List Char
  | [] => []
  | '\r' :: '\n' :: rest => '\n' :: normalizeNewlines rest
  | '\r' :: rest => '\n' :: normalizeNewlines rest
  | c :: rest => c :: normalizeNewlines rest

/-- `lexer.New`. -/
def Lexer.new (input : String) : Lexer :=
  { src := normalizeNewlines input.data, pos := 0, line := 1, col := 1 }

def Lexer.atEnd (l : Lexer) : Bool := l.src.length ≤ l.pos

/-- `peek`; the source indexes `src[pos]` and is only called with the
`atEnd` guard already checked, so the default is never observed. -/
def Lexer.peek (l : Lexer) : Char := l.src.getD l.pos (Char.ofNat 0)

/-- `peek2`: returns the NUL code point past the end, as in the source. -/
def Lexer.peek2 (l : Lexer) : Char :=
  if l.src.length ≤ l.pos + 1 then Char.ofNat 0 else l.src.getD (l.pos + 1) (Char.ofNat 0)

/-- `advance`: move one code point, updating line/column. -/
def Lexer.advance (l : Lexer) : Lexer :=
  if l.atEnd then l
  else
    let ch := l.peek
    if ch = '\n' then { l with pos := l.pos + 1, line := l.line + 1, col := 1 }
    else { l with pos := l.pos + 1, col := l.col + 1 }

theorem Lexer.advance_src (l : Lexer) : l.advance.src = l.src := by
  unfold Lexer.advance
  split
  · rfl
  · dsimp only
    split <;> rfl

theorem Lexer.advance_pos_of_not_atEnd (l : Lexer) (h : l.atEnd = false) :
    l.advance.pos = l.pos + 1 := by
  unfold Lexer.advance
  rw [if_neg (by simp [h])]
  dsimp only
  split <;> rfl

theorem Lexer.advance_pos_ge (l : Lexer) : l.pos ≤ l.advance.pos := by
  unfold Lexer.advance
  split
  · exact Nat.le_refl _
  · dsimp only
    split <;> exact Nat.le_succ _

theorem Lexer.not_atEnd_lt (l : Lexer) (h : l.atEnd = false) : l.pos < l.src.length := by
  unfold Lexer.atEnd at h
  simpa using of_decide_eq_false h

/-- Unread code points plus one: the fuel supplied to each scanning loop.
The Go loops advance at least one code point per iteration, so this bound
is never reached and the fueled loops agree with the source's loops. -/
def Lexer.fuelOf (l : Lexer) : Nat := l.src.length + 1 - l.pos

/-- Loop body of `skipWhitespaceExceptNewline` (fueled). -/
def Lexer.skipWsGo : Nat → Lexer → Lexer
  | 0, l => l
  | fuel + 1, l =>
    if l.atEnd then l
    else if l.peek = ' ' ∨ l.peek = '\t' then Lexer.skipWsGo fuel l.advance
    else l

/-- `skipWhitespaceExceptNewline`. -/
def Lexer.skipWs (l : Lexer) : Lexer := Lexer.skipWsGo l.fuelOf l

theorem Lexer.skipWsGo_src : ∀ (fuel : Nat) (l : Lexer), (Lexer.skipWsGo fuel l).src = l.src := by
  intro fuel
  induction fuel with
  | zero => intro l; rfl
  | succ f ih =>
    intro l
    rw [Lexer.skipWsGo]
    split
    · rfl
    · split
      · rw [ih, Lexer.advance_src]
      · rfl

theorem Lexer.skipWsGo_pos_ge : ∀ (fuel : Nat) (l : Lexer), l.pos ≤ (Lexer.skipWsGo fuel l).pos := by
  intro fuel
  induction fuel with
  | zero => intro l; exact Nat.le_refl _
  | succ f ih =>
    intro l
    rw [Lexer.skipWsGo]
    split
    · exact Nat.le_refl _
    · split
      · have h1 := Lexer.advance_pos_ge l
        have h2 := ih l.advance
        omega
      · exact Nat.le_refl _

theorem Lexer.skipWs_src (l : Lexer) : l.skipWs.src = l.src := Lexer.skipWsGo_src _ _

theorem Lexer.skipWs_pos_ge (l : Lexer) : l.pos ≤ l.skipWs.pos := Lexer.skipWsGo_pos_ge _ _

theorem Lexer.skipWs_eq_self (l : Lexer) (h : ¬(l.peek = ' ' ∨ l.peek = '\t')) :
    l.skipWs = l := by
  unfold Lexer.skipWs Lexer.fuelOf
  by_cases hEnd : l.atEnd
  · cases hn : l.src.length + 1 - l.pos with
    | zero => rfl
    | succ f => rw [Lexer.skipWsGo, if_pos hEnd]
  · have := Lexer.not_atEnd_lt l (by simpa using hEnd)
    cases hn : l.src.length + 1 - l.pos with
    | zero => omega
    | succ f =>
      rw [Lexer.skipWsGo, if_neg (by simpa using hEnd), if_neg h]

/-- Loop body of `skipComment` (fueled): consume to end of line, not the
newline itself. -/
def Lexer.skipCommentGo : Nat → Lexer → Lexer
  | 0, l => l
  | fuel + 1, l =>
    if l.atEnd then l
    else if l.peek = '\n' then l
    else Lexer.skipCommentGo fuel l.advance

/-- `skipComment`. -/
def Lexer.skipComment (l : Lexer) : Lexer := Lexer.skipCommentGo l.fuelOf l

theorem Lexer.skipCommentGo_src : ∀ (fuel : Nat) (l : Lexer),
    (Lexer.skipCommentGo fuel l).src = l.src := by
  intro fuel
  induction fuel with
  | zero => intro l; rfl
  | succ f ih =>
    intro l
    rw [Lexer.skipCommentGo]
    split
    · rfl
    · split
      · rfl
      · rw [ih, Lexer.advance_src]

theorem Lexer.skipCommentGo_pos_ge : ∀ (fuel : Nat) (l : Lexer),
    l.pos ≤ (Lexer.skipCommentGo fuel l).pos := by
  intro fuel
  induction fuel with
  | zero => intro l; exact Nat.le_refl _
  | succ f ih =>
    intro l
    rw [Lexer.skipCommentGo]
    split
    · exact Nat.le_refl _
    · split
      · exact Nat.le_refl _
      · have h1 := Lexer.advance_pos_ge l
        have h2 := ih l.advance
        omega

theorem Lexer.skipComment_src (l : Lexer) : l.skipComment.src = l.src :=
  Lexer.skipCommentGo_src _ _

theorem Lexer.skipComment_pos_ge (l : Lexer) : l.pos ≤ l.skipComment.pos :=
  Lexer.skipCommentGo_pos_ge _ _

theorem Lexer.skipComment_pos_gt (l : Lexer) (h : l.atEnd = false) (hnl : l.peek ≠ '\n') :
    l.pos < l.skipComment.pos := by
  have hlt := Lexer.not_atEnd_lt l h
  unfold Lexer.skipComment Lexer.fuelOf
  cases hn : l.src.length + 1 - l.pos with
  | zero => omega
  | succ f =>
    rw [Lexer.skipCommentGo, if_neg (by simp [h]), if_neg hnl]
    have h1 := Lexer.advance_pos_of_not_atEnd l h
    have h2 := Lexer.skipCommentGo_pos_ge f l.advance
    omega

/-- `skipComment` stops exactly at the next newline (or end of input): it
consumes the maximal newline-free run of code points. -/
theorem Lexer.skipCommentGo_pos_spec : ∀ (fuel : Nat) (l : Lexer),
    l.src.length - l.pos < fuel →
    (Lexer.skipCommentGo fuel l).pos =
      l.pos + ((l.src.drop l.pos).takeWhile (fun c => c ≠ '\n')).length := by
  intro fuel
  induction fuel with
  | zero => intro l h; omega
  | succ f ih =>
    intro l hf
    rw [Lexer.skipCommentGo]
    by_cases hEnd : l.atEnd
    · rw [if_pos hEnd]
      have : l.src.length ≤ l.pos := by simpa [Lexer.atEnd] using hEnd
      rw [List.drop_eq_nil_of_le this]
      simp
    · rw [if_neg hEnd]
      have hlt := Lexer.not_atEnd_lt l (by simpa using hEnd)
      have hdrop : l.src.drop l.pos = l.src[l.pos] :: l.src.drop (l.pos + 1) :=
        List.drop_eq_getElem_cons hlt
      have hpeek : l.peek = l.src[l.pos] := by
        simp [Lexer.peek, List.getD_eq_getElem?_getD, List.getElem?_eq_getElem hlt]
      by_cases hnl : l.peek = '\n'
      · rw [if_pos hnl]
        rw [hdrop, ← hpeek, hnl]
        simp
      · rw [if_neg hnl]
        have hadvp := Lexer.advance_pos_of_not_atEnd l (by simpa using hEnd)
        have hadvs := Lexer.advance_src l
        have := ih l.advance (by rw [hadvs, hadvp]; omega)
        rw [this, hadvs, hadvp, hdrop, ← hpeek]
        rw [List.takeWhile_cons_of_pos (by simpa using hnl)]
        simp
        omega

theorem Lexer.skipComment_pos_spec (l : Lexer) :
    l.skipComment.pos = l.pos + ((l.src.drop l.pos).takeWhile (fun c => c ≠ '\n')).length := by
  by_cases hEnd : l.src.length ≤ l.pos
  · have hdrop : l.src.drop l.pos = [] := List.drop_eq_nil_of_le hEnd
    have hself : l.skipComment = l := by
      unfold Lexer.skipComment Lexer.fuelOf
      cases hn : l.src.length + 1 - l.pos with
      | zero => rfl
      | succ f => rw [Lexer.skipCommentGo, if_pos (by simp [Lexer.atEnd, hEnd])]
    rw [hself, hdrop]
    simp
  · exact Lexer.skipCommentGo_pos_spec _ _ (by unfold Lexer.fuelOf; omega)

def isIdentStart (r : Char) : Bool := r.isAlpha || r = '_'

def isIdentPart (r : Char) : Bool := r.isAlpha || r.isDigit || r = '_'

/-- Loop body of `readIdent` (fueled): accumulate identifier characters. -/
def Lexer.readIdentLoop : Nat → Lexer → List Char → String × Lexer
  | 0, l, acc => (String.mk acc.reverse, l)
  | fuel + 1, l, acc =>
    if l.atEnd then (String.mk acc.reverse, l)
    else if isIdentPart l.peek then Lexer.readIdentLoop fuel l.advance (l.peek :: acc)
    else (String.mk acc.reverse, l)

/-- `readIdent`. -/
def Lexer.readIdent (l : Lexer) : String × Lexer := Lexer.readIdentLoop l.fuelOf l []

theorem Lexer.readIdentLoop_src : ∀ (fuel : Nat) (l : Lexer) (acc : List Char),
    (Lexer.readIdentLoop fuel l acc).2.src = l.src := by
  intro fuel
  induction fuel with
  | zero => intro l acc; rfl
  | succ f ih =>
    intro l acc
    rw [Lexer.readIdentLoop]
    split
    · rfl
    · split
      · rw [ih, Lexer.advance_src]
      · rfl

theorem Lexer.readIdentLoop_pos_ge : ∀ (fuel : Nat) (l : Lexer) (acc : List Char),
    l.pos ≤ (Lexer.readIdentLoop fuel l acc).2.pos := by
  intro fuel
  induction fuel with
  | zero => intro l acc; exact Nat.le_refl _
  | succ f ih =>
    intro l acc
    rw [Lexer.readIdentLoop]
    split
    · exact Nat.le_refl _
    · split
      · have h1 := Lexer.advance_pos_ge l
        have h2 := ih l.advance (l.peek :: acc)
        omega
      · exact Nat.le_refl _

theorem Lexer.readIdent_pos_gt (l : Lexer)
    (h : l.atEnd = false) (hc : isIdentPart l.peek = true) :
    l.pos < l.readIdent.2.pos := by
  have hlt := Lexer.not_atEnd_lt l h
  unfold Lexer.readIdent Lexer.fuelOf
  cases hn : l.src.length + 1 - l.pos with
  | zero => omega
  | succ f =>
    rw [Lexer.readIdentLoop, if_neg (by simp [h]), if_pos hc]
    have h1 := Lexer.advance_pos_of_not_atEnd l h
    have h2 := Lexer.readIdentLoop_pos_ge f l.advance (l.peek :: [])
    omega

/-- Digit run for `readNumber` (fueled). -/
def Lexer.readDigits : Nat → Lexer → List Char → List Char × Lexer
  | 0, l, acc => (acc, l)
  | fuel + 1, l, acc =>
    if l.atEnd then (acc, l)
    else if l.peek.isDigit then Lexer.readDigits fuel l.advance (l.peek :: acc)
    else (acc, l)

theorem Lexer.readDigits_src : ∀ (fuel : Nat) (l : Lexer) (acc : List Char),
    (Lexer.readDigits fuel l acc).2.src = l.src := by
  intro fuel
  induction fuel with
  | zero => intro l acc; rfl
  | succ f ih =>
    intro l acc
    rw [Lexer.readDigits]
    split
    · rfl
    · split
      · rw [ih, Lexer.advance_src]
      · rfl

theorem Lexer.readDigits_pos_ge : ∀ (fuel : Nat) (l : Lexer) (acc : List Char),
    l.pos ≤ (Lexer.readDigits fuel l acc).2.pos := by
  intro fuel
  induction fuel with
  | zero => intro l acc; exact Nat.le_refl _
  | succ f ih =>
    intro l acc
    rw [Lexer.readDigits]
    split
    · exact Nat.le_refl _
    · split
      · have h1 := Lexer.advance_pos_ge l
        have h2 := ih l.advance (l.peek :: acc)
        omega
      · exact Nat.le_refl _

/-- `readNumber`: digits, then an optional `.` followed by at least one
digit (checked by peeking one past the dot, as in the source). -/
def Lexer.readNumber (l : Lexer) : String × Lexer :=
  if (Lexer.readDigits l.fuelOf l []).2.atEnd = false ∧
      (Lexer.readDigits l.fuelOf l []).2.peek = '.' ∧
      (Lexer.readDigits l.fuelOf l []).2.pos + 1 < (Lexer.readDigits l.fuelOf l []).2.src.length ∧
      ((Lexer.readDigits l.fuelOf l []).2.src.getD
        ((Lexer.readDigits l.fuelOf l []).2.pos + 1) (Char.ofNat 0)).isDigit then
    (String.mk (Lexer.readDigits (Lexer.readDigits l.fuelOf l []).2.advance.fuelOf
        (Lexer.readDigits l.fuelOf l []).2.advance
        ('.' :: (Lexer.readDigits l.fuelOf l []).1)).1.reverse,
      (Lexer.readDigits (Lexer.readDigits l.fuelOf l []).2.advance.fuelOf
        (Lexer.readDigits l.fuelOf l []).2.advance
        ('.' :: (Lexer.readDigits l.fuelOf l []).1)).2)
  else
    (String.mk (Lexer.readDigits l.fuelOf l []).1.reverse, (Lexer.readDigits l.fuelOf l []).2)

theorem Lexer.readDigits_pos_gt (l : Lexer)
    (h : l.atEnd = false) (hc : l.peek.isDigit = true) :
    l.pos < (Lexer.readDigits l.fuelOf l []).2.pos := by
  have hlt := Lexer.not_atEnd_lt l h
  unfold Lexer.fuelOf
  cases hn : l.src.length + 1 - l.pos with
  | zero => omega
  | succ f =>
    rw [Lexer.readDigits, if_neg (by simp [h]), if_pos hc]
    have h1 := Lexer.advance_pos_of_not_atEnd l h
    have h2 := Lexer.readDigits_pos_ge f l.advance (l.peek :: [])
    omega

theorem Lexer.readNumber_src (l : Lexer) : l.readNumber.2.src = l.src := by
  unfold Lexer.readNumber
  split
  · dsimp only
    rw [Lexer.readDigits_src, Lexer.advance_src, Lexer.readDigits_src]
  · dsimp only
    rw [Lexer.readDigits_src]

theorem Lexer.readNumber_pos_gt (l : Lexer)
    (h : l.atEnd = false) (hc : l.peek.isDigit = true) :
    l.pos < l.readNumber.2.pos := by
  have h0 := Lexer.readDigits_pos_gt l h hc
  unfold Lexer.readNumber
  split
  · dsimp only
    have h1 := Lexer.advance_pos_ge (Lexer.readDigits l.fuelOf l []).2
    have h2 := Lexer.readDigits_pos_ge (Lexer.readDigits l.fuelOf l []).2.advance.fuelOf
      (Lexer.readDigits l.fuelOf l []).2.advance ('.' :: (Lexer.readDigits l.fuelOf l []).1)
    omega
  · exact h0

/-- Translation of the Go escape `switch` in `readString`. -/
def escapeChar (esc : Char) : Char :=
  match esc with
  | 'n' => '\n'
  | 'r' => '\r'
  | 't' => '\t'
  | '"' => '"'
  | '\\' => '\\'
  | _ => esc

/-- The loop inside `readString` (after the opening quote is consumed);
returns the decoded text and whether the string was terminated. -/
def Lexer.readStringLoop : Nat → Lexer → List Char → String × Bool × Lexer
  | 0, l, _ => ("", false, l)
  | fuel + 1, l, acc =>
    if l.atEnd then ("", false, l)
    else if l.peek = '"' then (String.mk acc.reverse, true, l.advance)
    else if l.peek = '\\' then
      if l.advance.atEnd then ("", false, l.advance)
      else Lexer.readStringLoop fuel l.advance.advance (escapeChar l.advance.peek :: acc)
    else Lexer.readStringLoop fuel l.advance (l.peek :: acc)

/-- `readString`: consume the opening quote, then loop. -/
def Lexer.readString (l : Lexer) : String × Bool × Lexer :=
  Lexer.readStringLoop l.advance.fuelOf l.advance []

theorem Lexer.readStringLoop_src : ∀ (fuel : Nat) (l : Lexer) (acc : List Char),
    (Lexer.readStringLoop fuel l acc).2.2.src = l.src := by
  intro fuel
  induction fuel with
  | zero => intro l acc; rfl
  | succ f ih =>
    intro l acc
    rw [Lexer.readStringLoop]
    split
    · rfl
    · split
      · exact Lexer.advance_src l
      · split
        · split
          · exact Lexer.advance_src l
          · rw [ih, Lexer.advance_src, Lexer.advance_src]
        · rw [ih, Lexer.advance_src]

theorem Lexer.readStringLoop_pos_ge : ∀ (fuel : Nat) (l : Lexer) (acc : List Char),
    l.pos ≤ (Lexer.readStringLoop fuel l acc).2.2.pos := by
  intro fuel
  induction fuel with
  | zero => intro l acc; exact Nat.le_refl _
  | succ f ih =>
    intro l acc
    rw [Lexer.readStringLoop]
    split
    · exact Nat.le_refl _
    · split
      · exact Lexer.advance_pos_ge l
      · split
        · split
          · exact Lexer.advance_pos_ge l
          · have h1 := Lexer.advance_pos_ge l
            have h2 := Lexer.advance_pos_ge l.advance
            have h3 := ih l.advance.advance (escapeChar l.advance.peek :: acc)
            omega
        · have h1 := Lexer.advance_pos_ge l
          have h2 := ih l.advance (l.peek :: acc)
          omega

theorem Lexer.readString_src (l : Lexer) : l.readString.2.2.src = l.src := by
  unfold Lexer.readString
  rw [Lexer.readStringLoop_src, Lexer.advance_src]

theorem Lexer.readString_pos_gt (l : Lexer) (h : l.atEnd = false) :
    l.pos < l.readString.2.2.pos := by
  unfold Lexer.readString
  have h1 := Lexer.advance_pos_of_not_atEnd l h
  have h2 := Lexer.readStringLoop_pos_ge l.advance.fuelOf l.advance []
  omega

/-- `make2` for two-character operators. -/
def Lexer.make2 (l : Lexer) (t : TokType) (lex : String) : Token × Lexer :=
  (⟨t, lex, l.line, l.col⟩, l.advance.advance)

/-- The single-character `switch` at the end of `NextToken`: every arm
emits one token and advances by one code point, so only the kind and
lexeme depend on the character. -/
def singleCharTok (c : Char) : TokType × String :=
  match c with
  | '=' => (.assign, "=")
  | '+' => (.plus, "+")
  | '-' => (.minus, "-")
  | '*' => (.star, "*")
  | '/' => (.slash, "/")
  | '(' => (.lparen, "(")
  | ')' => (.rparen, ")")
  | '[' => (.lbracket, "[")
  | ']' => (.rbracket, "]")
  | '{' => (.lbrace, "\x7b")
  | '}' => (.rbrace, "\x7d")
  | ':' => (.colon, ":")
  | ',' => (.comma, ",")
  | '<' => (.lt, "<")
  | '>' => (.gt, ">")
  | _ => (.illegal, String.mk [c])

theorem singleCharTok_ne_eof (c : Char) : (singleCharTok c).1 ≠ .eof := by
  unfold singleCharTok
  repeat' split
  all_goals simp

theorem LookupIdent_ne_eof (s : String) : LookupIdent s ≠ .eof := by
  unfold LookupIdent
  repeat' split
  all_goals simp

theorem isIdentPart_of_isIdentStart (c : Char) (h : isIdentStart c = true) :
    isIdentPart c = true := by
  simp only [isIdentStart, isIdentPart, Bool.or_eq_true] at h ⊢
  tauto

/-- `NextToken` from `lexer.go` (fueled: the fuel bounds the number of
comment lines skipped in one call, and the wrapper `nextToken` supplies
enough for the whole input).  Note the `#` branch: a `#` ALWAYS skips to
end of line as a comment — there is no check for a following digit and no
Hash token in the token model. -/
def Lexer.nextTokenGo : Nat → Lexer → Token × Lexer
  | 0, l => (⟨.eof, "", l.line, l.col⟩, l)
  | fuel + 1, l =>
    if (l.skipWs).atEnd then (⟨.eof, "", l.skipWs.line, l.skipWs.col⟩, l.skipWs)
    else
      if l.skipWs.peek = '\n' then
        (⟨.newline, "\n", l.skipWs.line, l.skipWs.col⟩, l.skipWs.advance)
      else if l.skipWs.peek = '#' then Lexer.nextTokenGo fuel l.skipWs.skipComment
      else if isIdentStart l.skipWs.peek then
        (⟨LookupIdent l.skipWs.readIdent.1, l.skipWs.readIdent.1, l.skipWs.line, l.skipWs.col⟩,
          l.skipWs.readIdent.2)
      else if l.skipWs.peek.isDigit then
        (⟨.number, l.skipWs.readNumber.1, l.skipWs.line, l.skipWs.col⟩, l.skipWs.readNumber.2)
      else if l.skipWs.peek = '"' then
        if l.skipWs.readString.2.1 then
          (⟨.strLit, l.skipWs.readString.1, l.skipWs.line, l.skipWs.col⟩, l.skipWs.readString.2.2)
        else
          (⟨.illegal, "unterminated string", l.skipWs.line, l.skipWs.col⟩, l.skipWs.readString.2.2)
      else if l.skipWs.peek = '=' ∧ l.skipWs.peek2 = '=' then l.skipWs.make2 .eq "=="
      else if l.skipWs.peek = '!' ∧ l.skipWs.peek2 = '=' then l.skipWs.make2 .neq "!="
      else if l.skipWs.peek = '<' ∧ l.skipWs.peek2 = '=' then l.skipWs.make2 .lte "<="
      else if l.skipWs.peek = '>' ∧ l.skipWs.peek2 = '=' then l.skipWs.make2 .gte ">="
      else
        (⟨(singleCharTok l.skipWs.peek).1, (singleCharTok l.skipWs.peek).2,
          l.skipWs.line, l.skipWs.col⟩, l.skipWs.advance)

/-- `NextToken`. -/
def Lexer.nextToken (l : Lexer) : Token × Lexer := Lexer.nextTokenGo l.fuelOf l

/-- Token stream produced by repeatedly calling `nextToken`, cut off by
`fuel`; the stream stops at (and includes) the first EOF token. -/
def Lexer.tokensFrom (l : Lexer) : Nat → List Token
  | 0 => []
  | fuel + 1 =>
    if l.nextToken.1.type = .eof then [l.nextToken.1]
    else l.nextToken.1 :: l.nextToken.2.tokensFrom fuel

/-- All tokens of an input string, with fuel that (by `C10`) suffices. -/
def lexAll (input : String) : List Token :=
  (Lexer.new input).tokensFrom ((Lexer.new input).src.length + 1)

/-! ### Lexer progress lemmas -/

theorem Lexer.nextTokenGo_src : ∀ (fuel : Nat) (l : Lexer),
    (Lexer.nextTokenGo fuel l).2.src = l.src := by
  intro fuel
  induction fuel with
  | zero => intro l; rfl
  | succ f ih =>
    intro l
    rw [Lexer.nextTokenGo]
    repeat' split
    all_goals
      simp_all [Lexer.advance_src, Lexer.skipWs_src, Lexer.skipComment_src,
        Lexer.readIdentLoop_src, Lexer.readIdent, Lexer.readNumber_src,
        Lexer.readString_src, Lexer.make2]

theorem Lexer.nextToken_src (l : Lexer) : l.nextToken.2.src = l.src :=
  Lexer.nextTokenGo_src _ _

theorem Lexer.nextTokenGo_progress : ∀ (fuel : Nat) (l : Lexer),
    l.src.length - l.pos < fuel →
    ((Lexer.nextTokenGo fuel l).1.type = .eof → (Lexer.nextTokenGo fuel l).2.atEnd = true) ∧
    ((Lexer.nextTokenGo fuel l).1.type ≠ .eof → l.pos < (Lexer.nextTokenGo fuel l).2.pos) := by
  intro fuel
  induction fuel with
  | zero => intro l hle; omega
  | succ f ih =>
    intro l hle
    rcases hnt : Lexer.nextTokenGo (f + 1) l with ⟨t, l2⟩
    rw [Lexer.nextTokenGo] at hnt
    simp only [Lexer.make2] at hnt
    repeat' split at hnt
    all_goals
      first
      | -- the `#` branch: apply the induction hypothesis after `skipComment`
        (have hne : l.skipWs.atEnd = false := by simpa using ‹¬l.skipWs.atEnd = true›
         have hlt := Lexer.not_atEnd_lt l.skipWs hne
         have hws := Lexer.skipWs_pos_ge l
         have hwsrc : l.skipWs.src.length = l.src.length := by rw [Lexer.skipWs_src]
         have hgt := Lexer.skipComment_pos_gt l.skipWs hne (by simpa using ‹¬l.skipWs.peek = '\n'›)
         have hcsrc : l.skipWs.skipComment.src.length = l.skipWs.src.length := by
           rw [Lexer.skipComment_src]
         have hIH := ih l.skipWs.skipComment (by omega)
         rw [hnt] at hIH
         obtain ⟨ih1, ih2⟩ := hIH
         exact ⟨fun h => ih1 h, fun hne2 => by have h5 := ih2 hne2; omega⟩)
      | (injection hnt with h1 h2
         subst h1; subst h2
         first
         | -- EOF branch
           exact ⟨fun _ => by simpa using ‹l.skipWs.atEnd = true›,
             fun hne2 => absurd rfl hne2⟩
         | -- identifier branch: the looked-up kind is never EOF
           (refine ⟨fun hk => absurd (by simpa using hk)
              (LookupIdent_ne_eof l.skipWs.readIdent.1), fun _ => ?_⟩
            show l.pos < l.skipWs.readIdent.2.pos
            have h1 := Lexer.readIdent_pos_gt l.skipWs
              (by simpa using ‹¬l.skipWs.atEnd = true›)
              (isIdentPart_of_isIdentStart _ (by simpa using ‹isIdentStart l.skipWs.peek = true›))
            have h2 := Lexer.skipWs_pos_ge l
            omega)
         | -- number branch
           (refine ⟨fun hk => by simp at hk, fun _ => ?_⟩
            show l.pos < l.skipWs.readNumber.2.pos
            have h1 := Lexer.readNumber_pos_gt l.skipWs
              (by simpa using ‹¬l.skipWs.atEnd = true›)
              (by simpa using ‹l.skipWs.peek.isDigit = true›)
            have h2 := Lexer.skipWs_pos_ge l
            omega)
         | -- string branches
           (refine ⟨fun hk => by simp at hk, fun _ => ?_⟩
            show l.pos < l.skipWs.readString.2.2.pos
            have h1 := Lexer.readString_pos_gt l.skipWs
              (by simpa using ‹¬l.skipWs.atEnd = true›)
            have h2 := Lexer.skipWs_pos_ge l
            omega)
         | -- switch default arm
           (refine ⟨fun hk => absurd (by simpa using hk)
              (singleCharTok_ne_eof l.skipWs.peek), fun _ => ?_⟩
            show l.pos < l.skipWs.advance.pos
            have h1 := Lexer.advance_pos_of_not_atEnd l.skipWs
              (by simpa using ‹¬l.skipWs.atEnd = true›)
            have h2 := Lexer.skipWs_pos_ge l
            omega)
         | -- newline token: one `advance`
           (refine ⟨fun hk => by simp at hk, fun _ => ?_⟩
            show l.pos < l.skipWs.advance.pos
            have h1 := Lexer.advance_pos_of_not_atEnd l.skipWs
              (by simpa using ‹¬l.skipWs.atEnd = true›)
            have h2 := Lexer.skipWs_pos_ge l
            omega)
         | -- two-character operators: two `advance`s
           (refine ⟨fun hk => by simp at hk, fun _ => ?_⟩
            show l.pos < l.skipWs.advance.advance.pos
            have h1 := Lexer.advance_pos_of_not_atEnd l.skipWs
              (by simpa using ‹¬l.skipWs.atEnd = true›)
            have h1b := Lexer.advance_pos_ge l.skipWs.advance
            have h2 := Lexer.skipWs_pos_ge l
            omega))

theorem Lexer.nextToken_progress (l : Lexer) :
    (l.nextToken.1.type = .eof → l.nextToken.2.atEnd = true) ∧
    (l.nextToken.1.type ≠ .eof → l.pos < l.nextToken.2.pos) := by
  by_cases hp : l.src.length + 1 ≤ l.pos
  · have h0 : l.fuelOf = 0 := by unfold Lexer.fuelOf; omega
    unfold Lexer.nextToken
    rw [h0]
    exact ⟨fun _ => by simp only [Lexer.nextTokenGo, Lexer.atEnd]; simp; omega,
      fun hne => absurd rfl hne⟩
  · exact Lexer.nextTokenGo_progress l.fuelOf l (by unfold Lexer.fuelOf; omega)

/-- A lexer whose position is at the end of input returns an EOF token. -/
theorem Lexer.nextToken_eof_of_atEnd (l : Lexer) (h : l.atEnd = true) :
    l.nextToken.1.type = .eof := by
  have hws : l.skipWs = l := by
    unfold Lexer.skipWs
    cases l.fuelOf with
    | zero => rfl
    | succ f => rw [Lexer.skipWsGo, if_pos h]
  unfold Lexer.nextToken
  cases l.fuelOf with
  | zero => rfl
  | succ f => rw [Lexer.nextTokenGo, hws, if_pos h]

/-- With fuel exceeding the number of unread code points, the token stream
is nonempty and ends with an EOF token. -/
theorem Lexer.tokensFrom_ends_eof : ∀ (fuel : Nat) (l : Lexer),
    l.src.length - l.pos < fuel →
    ∃ ts t, l.tokensFrom fuel = ts ++ [t] ∧ t.type = .eof := by
  intro fuel
  induction fuel with
  | zero => intro l hle; omega
  | succ n ih =>
    intro l hle
    rw [Lexer.tokensFrom]
    by_cases heof : l.nextToken.1.type = .eof
    · rw [if_pos heof]
      exact ⟨[], l.nextToken.1, rfl, heof⟩
    · rw [if_neg heof]
      have hprog := (Lexer.nextToken_progress l).2 heof
      have hsrc : l.nextToken.2.src.length = l.src.length := by rw [Lexer.nextToken_src]
      have hne : l.atEnd = false := by
        by_contra hC
        exact heof (Lexer.nextToken_eof_of_atEnd l (by simpa using hC))
      have hlt := Lexer.not_atEnd_lt l hne
      obtain ⟨ts, t, hts, ht⟩ := ih l.nextToken.2 (by omega)
      exact ⟨l.nextToken.1 :: ts, t, by rw [hts, List.cons_append], ht⟩

theorem takeWhile_length_le (p : Char → Bool) :
    ∀ xs : List Char, (xs.takeWhile p).length ≤ xs.length := by
  intro xs
  induction xs with
  | nil => simp
  | cons x xs ih =>
    by_cases hp : p x <;> simp [List.takeWhile_cons, hp] <;> omega

/-- `skipComment` never moves past the end of the input. -/
theorem Lexer.skipComment_pos_le (l : Lexer) (h : l.pos ≤ l.src.length) :
    l.skipComment.pos ≤ l.src.length := by
  have hspec := Lexer.skipComment_pos_spec l
  have htw : ((l.src.drop l.pos).takeWhile (fun c => c ≠ '\n')).length ≤
      (l.src.drop l.pos).length := takeWhile_length_le _ _
  have hdl : (l.src.drop l.pos).length = l.src.length - l.pos := List.length_drop _ _
  omega

/-- Any two sufficient fuels give `nextTokenGo` the same result: the fuel
is a modelling device, not part of the source semantics. -/
theorem Lexer.nextTokenGo_fuel_irrel : ∀ (f1 f2 : Nat) (l : Lexer),
    l.src.length - l.pos < f1 → l.src.length - l.pos < f2 →
    Lexer.nextTokenGo f1 l = Lexer.nextTokenGo f2 l := by
  intro f1
  induction f1 with
  | zero => intro f2 l h1 h2; omega
  | succ f1 ih =>
    intro f2 l h1 h2
    cases f2 with
    | zero => omega
    | succ f2 =>
      rw [Lexer.nextTokenGo]
      repeat' split
      all_goals conv_rhs => rw [Lexer.nextTokenGo]
      all_goals simp_all
      all_goals
        try rw [if_neg (by tauto), if_neg (by tauto), if_neg (by tauto), if_neg (by tauto)]
      all_goals try rfl
      -- remaining goals are the `#` branch, which recurses on both sides;
      -- both fuels stay sufficient because `skipComment` strictly advances
      all_goals
        (have hne : l.skipWs.atEnd = false := ‹l.skipWs.atEnd = false›
         have hlt := Lexer.not_atEnd_lt l.skipWs hne
         have hws := Lexer.skipWs_pos_ge l
         have hwsrc : l.skipWs.src.length = l.src.length := by rw [Lexer.skipWs_src]
         have hgt := Lexer.skipComment_pos_gt l.skipWs hne (by rw [‹l.skipWs.peek = '#'›]; simp)
         have hcsrc : l.skipWs.skipComment.src.length = l.skipWs.src.length := by
           rw [Lexer.skipComment_src]
         exact ih f2 l.skipWs.skipComment (by omega) (by omega))

/-! ## Claim theorems about the lexer -/

/-- C3 counterexample.  The claim says that `#` immediately followed by a
digit emits a `Hash` token and the number lexes separately.  On the input
`"#1"` the lexer instead treats `#1` as a comment and produces only the
EOF token: no token at all is emitted for `#` or for the digit (the token
model of `token.go` has no Hash kind whatsoever). -/
theorem C3_counterexample : lexAll "#1" = [⟨.eof, "", 1, 3⟩] := by decide

/-- C3 (amended): when `NextToken` reaches a `#` it ALWAYS skips the rest
of the line as a comment — even when the next code point is a digit — and
returns the token found after the comment; `skipComment` consumes exactly
the maximal newline-free run of code points.  No Hash token is ever
emitted (the token model has no such kind). -/
theorem C3_hash_always_comment (l : Lexer) (hEnd : l.atEnd = false) (hHash : l.peek = '#') :
    l.nextToken = l.skipComment.nextToken ∧
    l.skipComment.pos = l.pos + ((l.src.drop l.pos).takeWhile (fun c => c ≠ '\n')).length := by
  refine ⟨?_, Lexer.skipComment_pos_spec l⟩
  have hlt := Lexer.not_atEnd_lt l hEnd
  have hws : l.skipWs = l := Lexer.skipWs_eq_self l (by rw [hHash]; simp)
  have hgt := Lexer.skipComment_pos_gt l hEnd (by rw [hHash]; simp)
  have hcsrc : l.skipComment.src = l.src := Lexer.skipComment_src l
  have hcle : l.skipComment.pos ≤ l.src.length := Lexer.skipComment_pos_le l (by omega)
  show Lexer.nextTokenGo l.fuelOf l = Lexer.nextTokenGo l.skipComment.fuelOf l.skipComment
  have hf : l.fuelOf = (l.src.length - l.pos) + 1 := by unfold Lexer.fuelOf; omega
  rw [hf, Lexer.nextTokenGo, hws, if_neg (by simp [hEnd]),
    if_neg (by rw [hHash]; simp), if_pos hHash]
  exact Lexer.nextTokenGo_fuel_irrel _ _ _
    (by rw [hcsrc]; omega) (by unfold Lexer.fuelOf; rw [hcsrc]; omega)

/-- C3 amended, witness: on `"#7x"` the lexer is not at end, sees `#`
followed by the digit `7`, and the theorem applies. -/
theorem C3_hash_always_comment_witness :
    ((Lexer.new "#7x").atEnd = false ∧ (Lexer.new "#7x").peek = '#') ∧
    ((Lexer.new "#7x").nextToken = (Lexer.new "#7x").skipComment.nextToken ∧
      (Lexer.new "#7x").skipComment.pos = (Lexer.new "#7x").pos +
        (((Lexer.new "#7x").src.drop (Lexer.new "#7x").pos).takeWhile
          (fun c => c ≠ '\n')).length) :=
  ⟨⟨by decide, by decide⟩, C3_hash_always_comment (Lexer.new "#7x") (by decide) (by decide)⟩

/-- C10: every call to `NextToken` either returns an EOF token — and then
the resulting position is at the end of the input — or strictly advances
the position; a lexer already at the end returns EOF; consequently the
token stream of any input is finite, ending in an EOF token after at most
`length + 1` tokens. -/
theorem C10_nextToken_progress_and_terminates :
    (∀ l : Lexer, l.atEnd = true → l.nextToken.1.type = .eof) ∧
    (∀ l : Lexer, l.nextToken.1.type ≠ .eof → l.pos < l.nextToken.2.pos) ∧
    (∀ l : Lexer, l.nextToken.1.type = .eof → l.nextToken.2.atEnd = true) ∧
    (∀ input : String, ∃ ts t, lexAll input = ts ++ [t] ∧ t.type = .eof) :=
  ⟨Lexer.nextToken_eof_of_atEnd,
   fun l => (Lexer.nextToken_progress l).2,
   fun l => (Lexer.nextToken_progress l).1,
   fun _ => Lexer.tokensFrom_ends_eof _ _ (Nat.lt_succ_of_le (Nat.sub_le _ _))⟩

/-- C10, witness: the empty input is at end and lexes to EOF at once; on
`"x"` the first token is not EOF and the position strictly advances. -/
theorem C10_witness :
    ((Lexer.new "").atEnd = true ∧ (Lexer.new "").nextToken.1.type = .eof) ∧
    ((Lexer.new "x").nextToken.1.type ≠ .eof ∧
      (Lexer.new "x").pos < (Lexer.new "x").nextToken.2.pos) :=
  ⟨⟨by decide, C10_nextToken_progress_and_terminates.1 (Lexer.new "") (by decide)⟩,
   ⟨by decide, C10_nextToken_progress_and_terminates.2.1 (Lexer.new "x") (by decide)⟩⟩

/-! ## Interpreter: values (`interpreter/interpreter.go`)

`Value` mirrors the Go tagged struct (`Kind` plus payload fields).  Go
`float64` is modelled as `ℚ`; `*ArrayObject` and `*MapObject` pointers are
modelled as indices into explicit heaps carried by the interpreter state,
so the reference semantics of containers is preserved. -/

inductive Value where
  | null
  | number (n : ℚ)
  | str (s : String)
  | bool (b : Bool)
  | array (ref : Nat)
  | map (ref : Nat)
  deriving DecidableEq, Repr

/-! ## Interpreter: AST (`ast/*.go`)

Spans are omitted (diagnostics in the embedding carry only the message
text); `NumberLiteral` carries the already-parsed numeric value rather
than its lexeme (its `strconv.ParseFloat` never fails on lexer-produced
lexemes). -/

inductive Expr where
  | strLit (s : String)
  | numLit (n : ℚ)
  | boolLit (b : Bool)
  | ident (name : String)
  | unary (op : String) (right : Expr)
  | binary (left : Expr) (op : String) (right : Expr)
  | call (callee : String) (args : List Expr)
  | arrayLit (elems : List Expr)
  | mapLit (entries : List (String × Expr))
  | index (left : Expr) (idx : Expr)
  deriving Repr

inductive Stmt where
  | importStmt (path : String)
  | funcDecl (name : String) (params : List String) (body : List Stmt)
  | ret (value : Expr)
  | breakStmt
  | continueStmt
  | assign (name : String) (value : Expr)
  | indexAssign (name : String) (index : Expr) (value : Expr)
  | exprStmt (e : Expr)
  | print (value : Expr)
  | openStmt (handle : Int) (path : Expr) (mode : Expr)
  | closeStmt (handle : Int)
  | printHandle (handle : Int) (value : Expr)
  | ifStmt (cond : Expr) (thenB : List Stmt) (elseB : List Stmt)
  | whileStmt (cond : Expr) (body : List Stmt)
  | forStmt (var : String) (startE : Expr) (endE : Expr) (stepE : Option Expr)
      (body : List Stmt)
  | forEach (var : String) (indexVar : String) (iterable : Expr) (body : List Stmt)
  deriving Repr

/-- The Go `error` values the evaluator passes around: `RuntimeError`
(message only; span, source line and stack rendering omitted), the three
control-flow signals, and `fuelOut`, the out-of-fuel marker of the fueled
embedding (it behaves like an unhandled error: no `switch` in the source
matches it, so it propagates to the caller of `Run`). -/
inductive Err where
  | rt (msg : String)
  | retSig (v : Value)
  | brkSig
  | contSig
  | fuelOut
  deriving DecidableEq, Repr

/-- `moduleState`. -/
inductive ModState where
  | modNone
  | modLoading
  | modLoaded
  deriving DecidableEq, Repr

/-- Association-list lookup (Go map read). -/
def alookup {κ α : Type} [DecidableEq κ] : List (κ × α) → κ → Option α
  | [], _ => none
  | (k, v) :: rest, key => if k = key then some v else alookup rest key

/-- Association-list update-or-insert (Go map write); keeps keys distinct. -/
def aupsert {κ α : Type} [DecidableEq κ] : List (κ × α) → κ → α → List (κ × α)
  | [], key, val => [(key, val)]
  | (k, v) :: rest, key, val =>
    if k = key then (key, val) :: rest else (k, v) :: aupsert rest key val

/-- Association-list removal (Go `delete`). -/
def aerase {κ α : Type} [DecidableEq κ] : List (κ × α) → κ → List (κ × α)
  | [], _ => []
  | (k, v) :: rest, key => if k = key then rest else (k, v) :: aerase rest key

/-- Lexicographic code-point comparison of strings (`<` on Go strings;
UTF-8 byte order coincides with code-point order). -/
def strLtCp : List Char → List Char → Bool
  | [], [] => false
  | [], _ :: _ => true
  | _ :: _, [] => false
  | a :: as, b :: bs =>
    if a < b then true
    else if b < a then false
    else strLtCp as bs

def strLe (a b : String) : Bool := !strLtCp b.data a.data

def strLeP (a b : String) : Prop := strLe a b = true

instance : DecidableRel strLeP :=
  fun a b => inferInstanceAs (Decidable (_ = true))

/-- `sort.Strings`.  Modelled as insertion sort by the lexicographic
order: the sorted permutation is unique for a total order, so this agrees
with whatever sort the Go runtime uses. -/
def sortStrings (xs : List String) : List String := List.insertionSort strLeP xs

theorem strLtCp_asymm : ∀ (x y : List Char), strLtCp x y = true → strLtCp y x = false := by
  intro x
  induction x with
  | nil => intro y h; cases y <;> rfl
  | cons a as ih =>
    intro y h
    cases y with
    | nil => simp [strLtCp] at h
    | cons b bs =>
      simp only [strLtCp] at h ⊢
      by_cases hab : a < b
      · rw [if_neg (lt_asymm hab), if_pos hab]
      · by_cases hba : b < a
        · simp [hab, hba] at h
        · simp only [if_neg hab, if_neg hba] at h ⊢
          exact ih bs h

theorem strLtCp_le_trans : ∀ (x y z : List Char),
    strLtCp y x = false → strLtCp z y = false → strLtCp z x = false := by
  intro x
  induction x with
  | nil =>
    intro y z _ _
    cases z <;> rfl
  | cons a as ih =>
    intro y z h1 h2
    cases y with
    | nil => simp [strLtCp] at h1
    | cons b bs =>
      cases z with
      | nil => simp [strLtCp] at h2
      | cons c cs =>
        simp only [strLtCp] at h1 h2 ⊢
        by_cases hba : b < a
        · simp [hba] at h1
        · by_cases hcb : c < b
          · simp [hcb] at h2
          · rw [if_neg hba] at h1
            rw [if_neg hcb] at h2
            have hca : ¬c < a :=
              not_lt.mpr (le_trans (not_lt.mp hba) (not_lt.mp hcb))
            rw [if_neg hca]
            by_cases hac : a < c
            · rw [if_pos hac]
            · rw [if_neg hac]
              have hab2 : a = b :=
                le_antisymm (not_lt.mp hba) ((not_lt.mp hcb).trans (not_lt.mp hac))
              have hbc2 : b = c :=
                le_antisymm (not_lt.mp hcb) ((not_lt.mp hac).trans (not_lt.mp hba))
              have hnab : ¬a < b := by rw [hab2]; exact lt_irrefl b
              have hnbc : ¬b < c := by rw [hbc2]; exact lt_irrefl c
              have h1r : strLtCp bs as = false := by rwa [if_neg hnab] at h1
              have h2r : strLtCp cs bs = false := by rwa [if_neg hnbc] at h2
              exact ih bs cs h1r h2r

instance : IsTotal String strLeP := by
  constructor
  intro a b
  by_cases h : strLtCp b.data a.data = true
  · right
    simp [strLeP, strLe, strLtCp_asymm _ _ h]
  · left
    simp [strLeP, strLe, Bool.not_eq_true] at h ⊢
    exact h

instance : IsTrans String strLeP := by
  constructor
  intro a b c h1 h2
  simp only [strLeP, strLe, Bool.not_eq_true'] at h1 h2 ⊢
  exact strLtCp_le_trans a.data b.data c.data h1 h2

/-- The `Interpreter` struct together with the modelled host environment.

* `globals`, `locals`, `funcs`, `callStack`, `filename`, `modules`,
  `moduleStack` are the struct fields (`lines` is omitted along with
  caret rendering).  The top local frame is the HEAD of `locals`.
* `arrays` / `maps` are the container heaps (`*ArrayObject`/`*MapObject`).
* `files` maps an open handle to its path, `readers` holds the buffered
  unread lines of a handle, `closedLog` records every `Close` performed.
* `fsFiles` is the modelled data filesystem (path ↦ lines), `fsDirs` the
  set of directories created by `os.MkdirAll`.
* `importFs` is the modelled source filesystem seen by `import`: path ↦
  parsed program (reading + lexing + parsing of an existing file is
  treated as given; `fileExists` consults this map).
* `output` is stdout (each entry one write), `stdin` the unread lines. -/
structure Interp where
  globals : List (String × Value)
  locals : List (List (String × Value))
  funcs : List (String × (List String × List Stmt))
  filename : String
  callStack : List String
  modules : List (String × ModState)
  moduleStack : List String
  arrays : List (List Value)
  maps : List (List (String × Value))
  files : List (Int × String)
  readers : List (Int × List String)
  closedLog : List (Int × String)
  fsFiles : List (String × List String)
  fsDirs : List String
  importFs : List (String × List Stmt)
  output : List String
  stdin : List String
  deriving Repr

/-- `NewWithSource` (with an empty modelled host environment). -/
def Interp.newWithSource (filename : String) : Interp :=
  { globals := [], locals := [], funcs := [], filename := filename,
    callStack := [], modules := [], moduleStack := [],
    arrays := [], maps := [], files := [], readers := [], closedLog := [],
    fsFiles := [], fsDirs := [], importFs := [], output := [], stdin := [] }

def Interp.inFunction (st : Interp) : Bool := !st.locals.isEmpty

/-- Read from `currentEnv()`; a missing key yields the Go zero `Value`,
which has kind `ValNull`. -/
def Interp.currentEnvGet (st : Interp) (name : String) : Value :=
  match st.locals with
  | frame :: _ => (alookup frame name).getD .null
  | [] => (alookup st.globals name).getD .null

/-- Write through `currentEnv()[name] = v`. -/
def Interp.currentEnvSet (st : Interp) (name : String) (v : Value) : Interp :=
  match st.locals with
  | frame :: rest => { st with locals := aupsert frame name v :: rest }
  | [] => { st with globals := aupsert st.globals name v }

/-- `findVarEnv`: locals first, then globals.  Returns the value and
which environment it was found in (`true` = top frame). -/
def Interp.findVar (st : Interp) (name : String) : Option (Value × Bool) :=
  match st.locals with
  | frame :: _ =>
    match alookup frame name with
    | some v => some (v, true)
    | none => (alookup st.globals name).map (·, false)
  | [] => (alookup st.globals name).map (·, false)

/-- Write back through the environment found by `findVarEnv`. -/
def Interp.setVarIn (st : Interp) (inFrame : Bool) (name : String) (v : Value) : Interp :=
  if inFrame then
    match st.locals with
    | frame :: rest => { st with locals := aupsert frame name v :: rest }
    | [] => { st with globals := aupsert st.globals name v }
  else { st with globals := aupsert st.globals name v }

def Interp.pushLocals (st : Interp) : Interp := { st with locals := [] :: st.locals }

def Interp.popLocals (st : Interp) : Interp := { st with locals := st.locals.tail }

/-- Array heap read (`v.Arr.Elems`). -/
def Interp.getArr (st : Interp) (ref : Nat) : List Value := st.arrays.getD ref []

def Interp.setArr (st : Interp) (ref : Nat) (elems : List Value) : Interp :=
  { st with arrays := st.arrays.set ref elems }

/-- `ArrayValue`: allocate a fresh `ArrayObject`. -/
def Interp.allocArr (st : Interp) (elems : List Value) : Value × Interp :=
  (.array st.arrays.length, { st with arrays := st.arrays ++ [elems] })

/-- Map heap read (`v.Map.Elems`), an association list with distinct keys. -/
def Interp.getMap (st : Interp) (ref : Nat) : List (String × Value) := st.maps.getD ref []

def Interp.setMap (st : Interp) (ref : Nat) (entries : List (String × Value)) : Interp :=
  { st with maps := st.maps.set ref entries }

/-- `MapValue`: allocate a fresh `MapObject`. -/
def Interp.allocMap (st : Interp) (entries : List (String × Value)) : Value × Interp :=
  (.map st.maps.length, { st with maps := st.maps ++ [entries] })

/-- `runtimeErr` (message only; the span, source line, caret and call
stack of the rendered Go diagnostic are omitted from the embedding). -/
def rtErr (msg : String) : Err := .rt msg

/-- Integer-valued number rendering from `ToString`.  The non-integer
branch of the source uses `%g` (an IEEE-754 shortest form); over `ℚ` it
is modelled as the rational literal.  The `int64`-range restriction of
the integer test is not modelled. -/
def renderNum (q : ℚ) : String :=
  if q.den = 1 then toString q.num else toString q

/-- `%q` on a map key, with the escaping of special characters omitted. -/
def quoteKey (k : String) : String := "\"" ++ k ++ "\""

def joinSep (sep : String) : List String → String
  | [] => ""
  | [x] => x
  | x :: rest => x ++ sep ++ joinSep sep rest

/-- `Value.ToString`, with a depth bound: the Go original recurses
through container pointers and diverges on cyclic values; the callers
below always pass a bound larger than any acyclic value's depth. -/
def toStringV : Nat → Interp → Value → String
  | 0, _, _ => ""
  | depth + 1, st, v =>
    match v with
    | .number q => renderNum q
    | .str s => s
    | .bool b => if b then "true" else "false"
    | .array ref =>
      "[" ++ joinSep ", " ((st.getArr ref).map (toStringV depth st)) ++ "]"
    | .map ref =>
      "\x7b" ++ joinSep ", " ((sortStrings ((st.getMap ref).map Prod.fst)).map
        (fun k => quoteKey k ++ ": " ++
          toStringV depth st ((alookup (st.getMap ref) k).getD .null))) ++ "\x7d"
    | .null => "null"

/-- Depth bound sufficient for every acyclic value in the heap. -/
def Interp.renderDepth (st : Interp) : Nat := st.arrays.length + st.maps.length + 1

def Interp.render (st : Interp) (v : Value) : String := toStringV st.renderDepth st v

/-- `valuesEqual`, with the same depth-bound treatment as `toStringV`.
The nil-pointer identity branches of the source cannot arise here because
heap references are always valid. -/
def valuesEqual : Nat → Interp → Value → Value → Bool
  | 0, _, _, _ => false
  | depth + 1, st, a, b =>
    match a, b with
    | .null, .null => true
    | .number x, .number y => x = y
    | .str x, .str y => x = y
    | .bool x, .bool y => x = y
    | .array r1, .array r2 =>
      let e1 := st.getArr r1
      let e2 := st.getArr r2
      e1.length = e2.length &&
        (List.zip e1 e2).all (fun p => valuesEqual depth st p.1 p.2)
    | .map r1, .map r2 =>
      let m1 := st.getMap r1
      let m2 := st.getMap r2
      m1.length = m2.length &&
        m1.all (fun p =>
          match alookup m2 p.1 with
          | some bv => valuesEqual depth st p.2 bv
          | none => false)
    | _, _ => false

/-- `compareStrings`: `some` mirrors the `ok` flag. -/
def compareStrings (op : String) (a b : String) : Option Bool :=
  match op with
  | "<" => some (a < b)
  | ">" => some (b < a)
  | "<=" => some (a ≤ b)
  | ">=" => some (b ≤ a)
  | _ => none

/-- `toIndex`: a number that is an exact integer.  (The Go `int(float64)`
conversion truncates; the source then rejects any value that changed, so
only exact integers pass.) -/
def toIndex (v : Value) : Except String Int :=
  match v with
  | .number q => if q.den = 1 then .ok q.num else .error "Array index must be an integer"
  | _ => .error "Array index must be a number"

/-- `runeLen`: code-point count. -/
def runeLen (s : String) : Nat := s.data.length

/-- `substrRunes` from the source: `none` is the `ok=false` out-of-range
result.  Note that `start+length` past the end is CLAMPED, not an error. -/
def substrRunes (s : String) (start : Int) (lenO : Option Int) : Option String :=
  let rs := s.data
  if start < 0 ∨ start > (rs.length : Int) then none
  else
    match lenO with
    | none => some (String.mk (rs.drop start.toNat))
    | some len =>
      if len < 0 then none
      else some (String.mk ((rs.take (min (start + len).toNat rs.length)).drop start.toNat))

/-- Scan of `runeIndexOf`: first position where `ns` occurs. -/
def runeScanIdx (ns : List Char) : List Char → Nat → Int
  | [], _ => -1
  | hs@(_ :: t), i =>
    if ns.isPrefixOf hs then Int.ofNat i else runeScanIdx ns t (i + 1)

/-- `runeIndexOf`. -/
def runeIndexOf (hay needle : String) : Int :=
  let hs := hay.data
  let ns := needle.data
  if ns.length = 0 then 0
  else if ns.length > hs.length then -1
  else runeScanIdx ns hs 0

/-- Scan of `runeLastIndexOf` (the source scans downward from the end;
scanning upward and keeping the last hit finds the same position). -/
def runeScanLast (ns : List Char) : List Char → Nat → Int
  | [], _ => -1
  | hs@(_ :: t), i =>
    let later := runeScanLast ns t (i + 1)
    if later ≠ -1 then later
    else if ns.isPrefixOf hs then Int.ofNat i else -1

/-- `runeLastIndexOf`. -/
def runeLastIndexOf (hay needle : String) : Int :=
  let hs := hay.data
  let ns := needle.data
  if ns.length = 0 then Int.ofNat hs.length
  else if ns.length > hs.length then -1
  else runeScanLast ns hs 0

/-! ## Path helpers (Go `path/filepath`, simplified to `/`-separated paths) -/

def pathIsAbs (p : String) : Bool :=
  match p.data with
  | '/' :: _ => true
  | _ => false

/-- `strings.Split` on a non-empty separator, over code points (fueled by
the remaining length, which the loop always consumes). -/
def splitOnListGo (sep : List Char) : Nat → List Char → List Char → List String
  | 0, acc, cs => [String.mk (acc ++ cs)]
  | f + 1, acc, cs =>
    if sep.isPrefixOf cs then
      String.mk acc :: splitOnListGo sep f [] (cs.drop sep.length)
    else
      match cs with
      | [] => [String.mk acc]
      | c :: t => splitOnListGo sep f (acc ++ [c]) t

def splitOnS (s sep : String) : List String :=
  if sep = "" then [s]
  else splitOnListGo sep.data (s.data.length + 1) [] s.data

/-- Segment processing of `filepath.Clean` (`.` dropped, `..` pops). -/
def cleanStack (abs : Bool) : List String → List String → List String
  | acc, [] => acc.reverse
  | acc, ".." :: rest =>
    match acc with
    | [] => cleanStack abs (if abs then [] else [".."]) rest
    | top :: acctail =>
      if top = ".." then cleanStack abs (".." :: top :: acctail) rest
      else cleanStack abs acctail rest
  | acc, seg :: rest => cleanStack abs (seg :: acc) rest

/-- `filepath.Clean` (simplified: single separator, no Windows volumes). -/
def pathClean (p : String) : String :=
  if p = "" then "."
  else
    let abs := pathIsAbs p
    let segs := (splitOnS p "/").filter (fun s => s ≠ "" ∧ s ≠ ".")
    let out := cleanStack abs [] segs
    if out = [] then (if abs then "/" else ".")
    else (if abs then "/" else "") ++ joinSep "/" out

/-- `filepath.Dir` (simplified). -/
def pathDir (p : String) : String :=
  let parts := splitOnS p "/"
  if parts.length ≤ 1 then "."
  else
    let j := joinSep "/" parts.dropLast
    if j = "" then (if pathIsAbs p then "/" else ".") else pathClean j

/-- `filepath.Ext` (simplified): suffix of the last element from its last
dot, the dot included; empty when there is no dot. -/
def pathExt (p : String) : String :=
  let base := (splitOnS p "/").getLastD ""
  let i := runeLastIndexOf base "."
  if i < 0 then "" else String.mk (base.data.drop i.toNat)

/-- `filepath.Join` of two elements (simplified). -/
def pathJoin (a b : String) : String := pathClean (a ++ "/" ++ b)

/-! ## String builtin helpers (`strings` package operations used by
`evalBuiltin`, over code points) -/

def trimLeftSpace (cs : List Char) : List Char := cs.dropWhile Char.isWhitespace

def trimRightSpace (cs : List Char) : List Char :=
  (cs.reverse.dropWhile Char.isWhitespace).reverse

/-- `strings.TrimSpace`. -/
def trimSpace (s : String) : String := String.mk (trimRightSpace (trimLeftSpace s.data))

/-- `strings.Trim` with a cutset. -/
def trimCut (s cutset : String) : String :=
  String.mk (((s.data.dropWhile (cutset.data.contains ·)).reverse.dropWhile
    (cutset.data.contains ·)).reverse)

def trimLeftCut (s cutset : String) : String :=
  String.mk (s.data.dropWhile (cutset.data.contains ·))

def trimRightCut (s cutset : String) : String :=
  String.mk ((s.data.reverse.dropWhile (cutset.data.contains ·)).reverse)

def ltrimSpace (s : String) : String := String.mk (trimLeftSpace s.data)

def rtrimSpace (s : String) : String := String.mk (trimRightSpace s.data)

/-- `strings.ToLower` / `ToUpper` (ASCII case mapping; the full Unicode
tables of the Go runtime are not reproduced). -/
def toLowerS (s : String) : String := String.mk (s.data.map Char.toLower)

def toUpperS (s : String) : String := String.mk (s.data.map Char.toUpper)

def containsSub (s sub : String) : Bool := runeIndexOf s sub ≥ 0

def hasPre (s p : String) : Bool := p.data.isPrefixOf s.data

def hasSuf (s p : String) : Bool := p.data.isSuffixOf s.data

/-- Loop of `strings.Replace` (fueled by the remaining length; `n = 0`
stops, negative `n` never stops on the count). -/
def replaceLoop (olds news : List Char) : Nat → List Char → Int → List Char
  | 0, cs, _ => cs
  | f + 1, cs, n =>
    if n = 0 then cs
    else if olds = [] then
      news ++ (match cs with
        | [] => []
        | c :: t => c :: replaceLoop olds news f t (n - 1))
    else if olds.isPrefixOf cs then
      news ++ replaceLoop olds news f (cs.drop olds.length) (n - 1)
    else
      match cs with
      | [] => []
      | c :: t => c :: replaceLoop olds news f t n

/-- `strings.Replace`. -/
def goReplace (s old new' : String) (n : Int) : String :=
  if old = new' ∨ n = 0 then s
  else String.mk (replaceLoop old.data new'.data (s.data.length + 1) s.data n)

/-- `strings.Split`: an empty separator splits into code points. -/
def goSplit (s sep : String) : List String :=
  if sep = "" then s.data.map (fun c => String.mk [c])
  else splitOnS s sep

/-- Decimal parsing for `num()` (`strconv.ParseFloat`), modelled exactly
over `ℚ` for plain decimal and exponent forms; the non-finite spellings
(`Inf`, `NaN`) and hexadecimal floats are not representable and fail. -/
def digitsToNat (ds : List Char) : Nat :=
  ds.foldl (fun acc c => acc * 10 + (c.toNat - '0'.toNat)) 0

def parseNum (s : String) : Option ℚ :=
  let cs := s.data
  let (sign, cs) : ℚ × List Char :=
    match cs with
    | '+' :: t => (1, t)
    | '-' :: t => (-1, t)
    | _ => (1, cs)
  let intPart := cs.takeWhile Char.isDigit
  let cs1 := cs.dropWhile Char.isDigit
  let (fracPart, cs2) : List Char × List Char :=
    match cs1 with
    | '.' :: t => (t.takeWhile Char.isDigit, t.dropWhile Char.isDigit)
    | _ => ([], cs1)
  if intPart = [] ∧ fracPart = [] then none
  else if cs1 ≠ [] ∧ cs1.head? ≠ some '.' ∧ cs1.head? ≠ some 'e' ∧ cs1.head? ≠ some 'E' then
    none
  else
    let mantissa : ℚ := (digitsToNat intPart : ℚ) +
      (digitsToNat fracPart : ℚ) / ((10 : ℚ) ^ fracPart.length)
    match cs2 with
    | [] => some (sign * mantissa)
    | e :: t =>
      if e = 'e' ∨ e = 'E' then
        let (esign, t) : Bool × List Char :=
          match t with
          | '+' :: t2 => (false, t2)
          | '-' :: t2 => (true, t2)
          | _ => (false, t)
        if t = [] ∨ ¬(t.all Char.isDigit) then none
        else
          let ex := digitsToNat t
          some (sign * mantissa * (if esign then 1 / (10 : ℚ) ^ ex else (10 : ℚ) ^ ex))
      else none

/-! ## Builtins (`evalBuiltin`), dispatch after argument evaluation -/

/-- `getHandleReader`: `none` mirrors the not-open error; otherwise the
buffered reader (the unread lines of the file), created on demand. -/
def Interp.getHandleReader (st : Interp) (h : Int) : Option (List String × Interp) :=
  match alookup st.files h with
  | none => none
  | some path =>
    match alookup st.readers h with
    | some lines => some (lines, st)
    | none =>
      let lines := (alookup st.fsFiles path).getD []
      some (lines, { st with readers := aupsert st.readers h lines })

/-- Truncation of `int(float64)` (toward zero; the out-of-range case of
the Go conversion is not modelled). -/
def truncInt (q : ℚ) : Int := q.num / (q.den : Int)

/-- The `switch name` of `evalBuiltin`, given the already-evaluated
arguments.  Each case mirrors the source's combined arity/type check and
its error message. -/
def callBuiltin (st : Interp) (name : String) (args : List Value) :
    Except Err Value × Interp :=
  match name with
  | "str" =>
    match args with
    | [v] => (.ok (.str (st.render v)), st)
    | _ => (.error (rtErr "str() expects 1 arg"), st)
  | "num" =>
    match args with
    | [v] =>
      match v with
      | .number q => (.ok (.number q), st)
      | _ =>
        match parseNum (trimSpace (st.render v)) with
        | some q => (.ok (.number q), st)
        | none => (.error (rtErr ("num() could not parse " ++ quoteKey (st.render v))), st)
    | _ => (.error (rtErr "num() expects 1 arg"), st)
  | "len" =>
    match args with
    | [v] =>
      match v with
      | .str s => (.ok (.number (runeLen s : ℚ)), st)
      | .array ref => (.ok (.number ((st.getArr ref).length : ℚ)), st)
      | .map ref => (.ok (.number ((st.getMap ref).length : ℚ)), st)
      | _ => (.error (rtErr "len() expects a string, array, or map"), st)
    | _ => (.error (rtErr "len() expects 1 arg"), st)
  | "lower" =>
    match args with
    | [.str s] => (.ok (.str (toLowerS s)), st)
    | _ => (.error (rtErr "lower() expects 1 string arg"), st)
  | "upper" =>
    match args with
    | [.str s] => (.ok (.str (toUpperS s)), st)
    | _ => (.error (rtErr "upper() expects 1 string arg"), st)
  | "trim" =>
    match args with
    | [.str s] => (.ok (.str (trimSpace s)), st)
    | [.str s, .str cutset] => (.ok (.str (trimCut s cutset)), st)
    | [_] => (.error (rtErr "trim() first arg must be a string"), st)
    | [.str _, _] => (.error (rtErr "trim() cutset must be a string"), st)
    | [_, _] => (.error (rtErr "trim() first arg must be a string"), st)
    | _ => (.error (rtErr "trim() expects 1 or 2 args: trim(s [,cutset])"), st)
  | "ltrim" =>
    match args with
    | [.str s] => (.ok (.str (ltrimSpace s)), st)
    | [.str s, .str cutset] => (.ok (.str (trimLeftCut s cutset)), st)
    | [_] => (.error (rtErr "ltrim() first arg must be a string"), st)
    | [.str _, _] => (.error (rtErr "ltrim() cutset must be a string"), st)
    | [_, _] => (.error (rtErr "ltrim() first arg must be a string"), st)
    | _ => (.error (rtErr "ltrim() expects 1 or 2 args: ltrim(s [,cutset])"), st)
  | "rtrim" =>
    match args with
    | [.str s] => (.ok (.str (rtrimSpace s)), st)
    | [.str s, .str cutset] => (.ok (.str (trimRightCut s cutset)), st)
    | [_] => (.error (rtErr "rtrim() first arg must be a string"), st)
    | [.str _, _] => (.error (rtErr "rtrim() cutset must be a string"), st)
    | [_, _] => (.error (rtErr "rtrim() first arg must be a string"), st)
    | _ => (.error (rtErr "rtrim() expects 1 or 2 args: rtrim(s [,cutset])"), st)
  | "contains" =>
    match args with
    | [.str s, .str sub] => (.ok (.bool (containsSub s sub)), st)
    | _ => (.error (rtErr "contains() expects 2 string args: contains(s, sub)"), st)
  | "startswith" =>
    match args with
    | [.str s, .str p] => (.ok (.bool (hasPre s p)), st)
    | _ => (.error (rtErr "startswith() expects 2 string args: startswith(s, prefix)"), st)
  | "endswith" =>
    match args with
    | [.str s, .str p] => (.ok (.bool (hasSuf s p)), st)
    | _ => (.error (rtErr "endswith() expects 2 string args: endswith(s, suffix)"), st)
  | "replace" =>
    match args with
    | [.str s, .str old, .str new'] => (.ok (.str (goReplace s old new' (-1))), st)
    | [.str s, .str old, .str new', .number q] =>
      (.ok (.str (goReplace s old new' (truncInt q))), st)
    | [.str _, .str _, .str _, _] => (.error (rtErr "replace() n must be a number"), st)
    | [_, _, _] => (.error (rtErr "replace() expects string args for s/old/new"), st)
    | [_, _, _, _] => (.error (rtErr "replace() expects string args for s/old/new"), st)
    | _ => (.error (rtErr "replace() expects 3 or 4 args: replace(s, old, new [,n])"), st)
  | "split" =>
    match args with
    | [.str s, .str sep] =>
      let (v, st2) := st.allocArr ((goSplit s sep).map Value.str)
      (.ok v, st2)
    | _ => (.error (rtErr "split() expects 2 string args: split(s, sep)"), st)
  | "join" =>
    match args with
    | [.array ref, .str sep] =>
      (.ok (.str (joinSep sep ((st.getArr ref).map st.render))), st)
    | [.array _, _] => (.error (rtErr "join() sep must be a string"), st)
    | [_, _] => (.error (rtErr "join() first arg must be an array"), st)
    | _ => (.error (rtErr "join() expects 2 args: join(array, sep)"), st)
  | "indexof" =>
    match args with
    | [.str s, .str sub] => (.ok (.number (runeIndexOf s sub : ℚ)), st)
    | _ => (.error (rtErr "indexof() expects 2 string args: indexof(s, sub)"), st)
  | "lastindexof" =>
    match args with
    | [.str s, .str sub] => (.ok (.number (runeLastIndexOf s sub : ℚ)), st)
    | _ => (.error (rtErr "lastindexof() expects 2 string args: lastindexof(s, sub)"), st)
  | "repeat" =>
    match args with
    | [.str s, .number q] =>
      let n := truncInt q
      if n < 0 then (.error (rtErr "repeat() n must be >= 0"), st)
      else (.ok (.str (String.join (List.replicate n.toNat s))), st)
    | _ => (.error (rtErr "repeat() expects (string, number): repeat(s, n)"), st)
  | "substr" =>
    match args with
    | [.str s, .number qs] =>
      if qs.den ≠ 1 then (.error (rtErr "substr() start must be an integer"), st)
      else
        match substrRunes s qs.num none with
        | some out => (.ok (.str out), st)
        | none => (.error (rtErr "substr() out of range"), st)
    | [.str s, .number qs, .number ql] =>
      if qs.den ≠ 1 then (.error (rtErr "substr() start must be an integer"), st)
      else if ql.den ≠ 1 then (.error (rtErr "substr() len must be an integer"), st)
      else
        match substrRunes s qs.num (some ql.num) with
        | some out => (.ok (.str out), st)
        | none => (.error (rtErr "substr() out of range"), st)
    | [.str _, .number _, _] => (.error (rtErr "substr() len must be a number"), st)
    | [_, _] => (.error (rtErr "substr() expects (string, number [,number])"), st)
    | [_, _, _] => (.error (rtErr "substr() expects (string, number [,number])"), st)
    | _ => (.error (rtErr "substr() expects 2 or 3 args: substr(s, start [,len])"), st)
  | "lineinput" =>
    match args with
    | [.number q] =>
      if q.den ≠ 1 ∨ q.num ≤ 0 then
        (.error (rtErr "lineinput() handle must be a positive integer"), st)
      else
        match st.getHandleReader q.num with
        | none =>
          (.error (rtErr ("lineinput() failed: handle #" ++ toString q.num ++ " is not open")), st)
        | some ([], st2) => (.ok .null, st2)
        | some (line :: rest, st2) =>
          (.ok (.str line), { st2 with readers := aupsert st2.readers q.num rest })
    | _ => (.error (rtErr "lineinput() expects 1 number arg: lineinput(handle)"), st)
  | "eof" =>
    match args with
    | [.number q] =>
      if q.den ≠ 1 ∨ q.num ≤ 0 then
        (.error (rtErr "eof() handle must be a positive integer"), st)
      else if (alookup st.files q.num).isNone then (.ok (.bool true), st)
      else
        match st.getHandleReader q.num with
        | none => (.ok (.bool true), st)
        | some (lines, st2) => (.ok (.bool lines.isEmpty), st2)
    | _ => (.error (rtErr "eof() expects 1 number arg: eof(handle)"), st)
  | "input" =>
    match args with
    | [] =>
      match st.stdin with
      | [] => (.ok (.str ""), st)
      | line :: rest => (.ok (.str line), { st with stdin := rest })
    | [v] =>
      let st2 := { st with output := st.output ++ [st.render v] }
      match st2.stdin with
      | [] => (.ok (.str ""), st2)
      | line :: rest => (.ok (.str line), { st2 with stdin := rest })
    | _ => (.error (rtErr "input() expects 0 or 1 args"), st)
  | _ => (.error (rtErr ("Undefined function " ++ quoteKey name)), st)

/-! ## Imports: path resolution (`execImport` helpers) -/

/-- `fileExists` (`os.Stat`), over the modelled source filesystem. -/
def Interp.fileExists (st : Interp) (p : String) : Bool := (alookup st.importFs p).isSome

def projectRootCandidates : List String := ["."]

/-- Candidate deduplication at the end of `importCandidates`: empty and
already-seen entries are dropped, order preserved. -/
def dedupCands : List String → List String → List String
  | _, [] => []
  | seen, c :: rest =>
    if c = "" ∨ seen.contains c then dedupCands seen rest
    else c :: dedupCands (c :: seen) rest

/-- `importCandidates`. -/
def importCandidates (raw importerFilename : String) : List String :=
  let raw := trimSpace raw
  if raw = "" then []
  else
    let needsExt := pathExt raw = ""
    let withExt := if needsExt then raw ++ ".bpl" else raw
    if pathIsAbs raw then
      dedupCands [] ([pathClean raw] ++ (if needsExt then [pathClean withExt] else []))
    else
      let baseDir := if importerFilename = "" then "" else pathDir importerFilename
      let baseCands :=
        if baseDir ≠ "" then
          [pathJoin baseDir raw] ++ (if needsExt then [pathJoin baseDir withExt] else []) ++
          [pathJoin (pathJoin baseDir "lib") raw] ++
          (if needsExt then [pathJoin (pathJoin baseDir "lib") withExt] else [])
        else []
      let rootCands := projectRootCandidates.foldr
        (fun root acc =>
          [pathJoin root raw] ++ (if needsExt then [pathJoin root withExt] else []) ++
          [pathJoin (pathJoin root "lib") raw] ++
          (if needsExt then [pathJoin (pathJoin root "lib") withExt] else []) ++ acc) []
      dedupCands [] (baseCands ++ rootCands)

/-- First existing candidate; falls back to the first candidate, then to
the raw path (`resolveImportPath`). -/
def Interp.resolveImportPath (st : Interp) (raw importerFilename : String) :
    String × List String :=
  let cands := importCandidates raw importerFilename
  match cands.find? (fun c => st.fileExists c) with
  | some c => (c, cands)
  | none =>
    match cands with
    | c :: _ => (c, cands)
    | [] => (raw, cands)

/-- `circularImportMessage`. -/
def Interp.circularImportMessage (st : Interp) (target : String) : String :=
  "Circular import detected:\n" ++
    String.join (st.moduleStack.map (fun p => "  " ++ p ++ "\n")) ++ "  " ++ target

/-- The not-found message of `execImport`, listing every candidate. -/
def importNotFoundMessage (raw : String) (tried : List String) : String :=
  let base := "import failed: file not found " ++ quoteKey raw
  if tried = [] then base
  else base ++ "\nTried:\n" ++ joinSep "\n" (tried.map (fun c => "  " ++ c))

/-! ## The evaluator (`Run`, `execStmt`, `evalExpr`, …)

All functions take fuel and recurse structurally on it; running out of
fuel yields `Err.fuelOut`, which no `switch` in the source matches, so it
propagates outward exactly like an unhandled error.  Every theorem below
supplies enough fuel for the executions it talks about. -/

mutual

def evalExpr : Nat → Interp → Expr → Except Err Value × Interp
  | 0, st, _ => (.error .fuelOut, st)
  | fuel + 1, st, e =>
    match e with
    | .strLit s => (.ok (.str s), st)
    | .numLit q => (.ok (.number q), st)
    | .boolLit b => (.ok (.bool b), st)
    | .arrayLit elems =>
      match evalExprList fuel st elems with
      | (.error err, st') => (.error err, st')
      | (.ok vs, st') =>
        let (v, st2) := st'.allocArr vs
        (.ok v, st2)
    | .mapLit entries =>
      match evalMapEntries fuel st [] entries with
      | (.error err, st') => (.error err, st')
      | (.ok m, st') =>
        let (v, st2) := st'.allocMap m
        (.ok v, st2)
    | .index left idxE =>
      match evalExpr fuel st left with
      | (.error err, st') => (.error err, st')
      | (.ok lv, st') =>
        match evalExpr fuel st' idxE with
        | (.error err, st2) => (.error err, st2)
        | (.ok iv, st2) =>
          match lv with
          | .array ref =>
            match toIndex iv with
            | .error msg => (.error (rtErr msg), st2)
            | .ok idx =>
              let elems := st2.getArr ref
              if idx < 0 ∨ idx ≥ (elems.length : Int) then
                (.error (rtErr ("Array index out of bounds (index " ++ toString idx ++
                  ", size " ++ toString elems.length ++ ")")), st2)
              else (.ok (elems.getD idx.toNat .null), st2)
          | .map ref =>
            match iv with
            | .str key =>
              match alookup (st2.getMap ref) key with
              | some v => (.ok v, st2)
              | none => (.error (rtErr ("Map key " ++ quoteKey key ++ " not found")), st2)
            | _ => (.error (rtErr "Map key must be a string"), st2)
          | _ => (.error (rtErr "Indexing requires an array or map"), st2)
    | .ident name =>
      match st.findVar name with
      | some (v, _) => (.ok v, st)
      | none => (.error (rtErr ("Undefined variable " ++ quoteKey name)), st)
    | .call callee args => evalCall fuel st callee args
    | .unary op right =>
      match evalExpr fuel st right with
      | (.error err, st') => (.error err, st')
      | (.ok rv, st') =>
        match op with
        | "not" =>
          match rv with
          | .bool b => (.ok (.bool (!b)), st')
          | _ => (.error (rtErr "Operator \"not\" requires boolean"), st')
        | _ => (.error (rtErr ("Unknown unary operator " ++ quoteKey op)), st')
    | .binary left op right =>
      if op = "and" ∨ op = "or" then
        match evalExpr fuel st left with
        | (.error err, st') => (.error err, st')
        | (.ok lv, st') =>
          match lv with
          | .bool lb =>
            if op = "and" then
              if !lb then (.ok (.bool false), st')
              else
                match evalExpr fuel st' right with
                | (.error err, st2) => (.error err, st2)
                | (.ok rv, st2) =>
                  match rv with
                  | .bool rb => (.ok (.bool (lb && rb)), st2)
                  | _ => (.error (rtErr "Operator \"and\" requires booleans"), st2)
            else
              if lb then (.ok (.bool true), st')
              else
                match evalExpr fuel st' right with
                | (.error err, st2) => (.error err, st2)
                | (.ok rv, st2) =>
                  match rv with
                  | .bool rb => (.ok (.bool (lb || rb)), st2)
                  | _ => (.error (rtErr "Operator \"or\" requires booleans"), st2)
          | _ => (.error (rtErr ("Operator " ++ quoteKey op ++ " requires booleans")), st')
      else
        match evalExpr fuel st left with
        | (.error err, st') => (.error err, st')
        | (.ok lv, st') =>
          match evalExpr fuel st' right with
          | (.error err, st2) => (.error err, st2)
          | (.ok rv, st2) =>
            if op = "+" then
              match lv, rv with
              | .number a, .number b => (.ok (.number (a + b)), st2)
              | .array r1, .array r2 =>
                let (v, st3) := st2.allocArr (st2.getArr r1 ++ st2.getArr r2)
                (.ok v, st3)
              | _, _ => (.ok (.str (st2.render lv ++ st2.render rv)), st2)
            else if op = "==" ∨ op = "!=" then
              let eq := valuesEqual st2.renderDepth st2 lv rv
              (.ok (.bool (if op = "!=" then !eq else eq)), st2)
            else if op = "<" ∨ op = ">" ∨ op = "<=" ∨ op = ">=" then
              match lv, rv with
              | .number a, .number b =>
                match op with
                | "<" => (.ok (.bool (a < b)), st2)
                | ">" => (.ok (.bool (a > b)), st2)
                | "<=" => (.ok (.bool (a ≤ b)), st2)
                | _ => (.ok (.bool (a ≥ b)), st2)
              | .str a, .str b =>
                match compareStrings op a b with
                | some res => (.ok (.bool res), st2)
                | none => (.error (rtErr ("Unknown operator " ++ quoteKey op)), st2)
              | _, _ =>
                (.error (rtErr ("Operator " ++ quoteKey op ++
                  " requires two numbers or two strings")), st2)
            else
              match lv, rv with
              | .number a, .number b =>
                match op with
                | "-" => (.ok (.number (a - b)), st2)
                | "*" => (.ok (.number (a * b)), st2)
                | "/" => (.ok (.number (a / b)), st2)
                | _ => (.error (rtErr ("Unknown operator " ++ quoteKey op)), st2)
              | _, _ =>
                (.error (rtErr ("Operator " ++ quoteKey op ++ " requires numbers")), st2)

def evalExprList : Nat → Interp → List Expr → Except Err (List Value) × Interp
  | 0, st, _ => (.error .fuelOut, st)
  | fuel + 1, st, es =>
    match es with
    | [] => (.ok [], st)
    | e :: rest =>
      match evalExpr fuel st e with
      | (.error err, st') => (.error err, st')
      | (.ok v, st') =>
        match evalExprList fuel st' rest with
        | (.error err, st2) => (.error err, st2)
        | (.ok vs, st2) => (.ok (v :: vs), st2)

def evalMapEntries : Nat → Interp → List (String × Value) → List (String × Expr) →
    Except Err (List (String × Value)) × Interp
  | 0, st, _, _ => (.error .fuelOut, st)
  | fuel + 1, st, acc, entries =>
    match entries with
    | [] => (.ok acc, st)
    | (k, ve) :: rest =>
      match evalExpr fuel st ve with
      | (.error err, st') => (.error err, st')
      | (.ok v, st') => evalMapEntries fuel st' (aupsert acc k v) rest

def evalCall : Nat → Interp → String → List Expr → Except Err Value × Interp
  | 0, st, _, _ => (.error .fuelOut, st)
  | fuel + 1, st, callee, args =>
    match alookup st.funcs callee with
    | some (params, body) => evalUserCall fuel st callee params body args
    | none =>
      match evalExprList fuel st args with
      | (.error err, st') => (.error err, st')
      | (.ok vs, st') => callBuiltin st' callee vs

def evalUserCall : Nat → Interp → String → List String → List Stmt → List Expr →
    Except Err Value × Interp
  | 0, st, _, _, _, _ => (.error .fuelOut, st)
  | fuel + 1, st, fnName, params, body, args =>
    if args.length ≠ params.length then
      (.error (rtErr ("Function " ++ quoteKey fnName ++ " expects " ++
        toString params.length ++ " args, got " ++ toString args.length)), st)
    else
      match evalExprList fuel st args with
      | (.error err, st') => (.error err, st')
      | (.ok argVals, st') =>
        let st1 := { st' with callStack := st'.callStack ++ [fnName] }
        let st2 := st1.pushLocals
        let st3 := (params.zip argVals).foldl
          (fun acc p => acc.currentEnvSet p.1 p.2) st2
        match runStmts fuel st3 body with
        | (err, st4) =>
          -- the deferred popLocals / callStack pop runs on every path
          let st5 := { st4.popLocals with callStack := st4.callStack.dropLast }
          match err with
          | some (.retSig v) => (.ok v, st5)
          | some e => (.error e, st5)
          | none =>
            (.error (rtErr ("Function " ++ quoteKey fnName ++ " ended without return")), st5)

def execStmt : Nat → Interp → Stmt → Option Err × Interp
  | 0, st, _ => (some .fuelOut, st)
  | fuel + 1, st, s =>
    match s with
    | .importStmt path => execImport fuel st path
    | .funcDecl name params body =>
      (none, { st with funcs := aupsert st.funcs name (params, body) })
    | .ret e =>
      if !st.inFunction then
        (some (rtErr "Return is only valid inside a function"), st)
      else
        match evalExpr fuel st e with
        | (.error err, st') => (some err, st')
        | (.ok v, st') => (some (.retSig v), st')
    | .breakStmt => (some .brkSig, st)
    | .continueStmt => (some .contSig, st)
    | .assign name e =>
      match evalExpr fuel st e with
      | (.error err, st') => (some err, st')
      | (.ok v, st') => (none, st'.currentEnvSet name v)
    | .indexAssign name idxE valE => execIndexAssign fuel st name idxE valE
    | .exprStmt e =>
      match evalExpr fuel st e with
      | (.error err, st') => (some err, st')
      | (.ok _, st') => (none, st')
    | .print e =>
      match evalExpr fuel st e with
      | (.error err, st') => (some err, st')
      | (.ok v, st') => (none, { st' with output := st'.output ++ [st'.render v] })
    | .openStmt handle pathE modeE => execOpen fuel st handle pathE modeE
    | .closeStmt handle =>
      match alookup st.files handle with
      | none =>
        (some (rtErr ("close failed: handle #" ++ toString handle ++ " is not open")), st)
      | some path =>
        (none, { st with
                  files := aerase st.files handle,
                  readers := aerase st.readers handle,
                  closedLog := st.closedLog ++ [(handle, path)] })
    | .printHandle handle e => execPrintHandle fuel st handle e
    | .ifStmt cond thenB elseB =>
      match evalExpr fuel st cond with
      | (.error err, st') => (some err, st')
      | (.ok cv, st') =>
        match cv with
        | .bool b => if b then runStmts fuel st' thenB else runStmts fuel st' elseB
        | _ => (some (rtErr "If condition must be boolean"), st')
    | .whileStmt cond body => whileLoop fuel st cond body
    | .forStmt var startE endE stepE body => execFor fuel st var startE endE stepE body
    | .forEach var ivar iterable body => execForEach fuel st var ivar iterable body

def runStmts : Nat → Interp → List Stmt → Option Err × Interp
  | 0, st, _ => (some .fuelOut, st)
  | fuel + 1, st, ss =>
    match ss with
    | [] => (none, st)
    | s :: rest =>
      match execStmt fuel st s with
      | (some err, st') => (some err, st')
      | (none, st') => runStmts fuel st' rest

def whileLoop : Nat → Interp → Expr → List Stmt → Option Err × Interp
  | 0, st, _, _ => (some .fuelOut, st)
  | fuel + 1, st, cond, body =>
    match evalExpr fuel st cond with
    | (.error err, st') => (some err, st')
    | (.ok cv, st') =>
      match cv with
      | .bool b =>
        if !b then (none, st')
        else
          match runStmts fuel st' body with
          | (none, st2) => whileLoop fuel st2 cond body
          | (some .brkSig, st2) => (none, st2)
          | (some .contSig, st2) => whileLoop fuel st2 cond body
          | (some e, st2) => (some e, st2)
      | _ => (some (rtErr "While condition must be boolean"), st')

def execFor : Nat → Interp → String → Expr → Expr → Option Expr → List Stmt →
    Option Err × Interp
  | 0, st, _, _, _, _, _ => (some .fuelOut, st)
  | fuel + 1, st, var, startE, endE, stepE, body =>
    match evalExpr fuel st startE with
    | (.error err, st') => (some err, st')
    | (.ok sv, st') =>
      match evalExpr fuel st' endE with
      | (.error err, st2) => (some err, st2)
      | (.ok ev, st2) =>
        match sv, ev with
        | .number startQ, .number endQ =>
          match stepE with
          | none =>
            let step : ℚ := if startQ > endQ then -1 else 1
            forLoop fuel (st2.currentEnvSet var (.number startQ)) var endQ step body
          | some se =>
            match evalExpr fuel st2 se with
            | (.error err, st3) => (some err, st3)
            | (.ok stepv, st3) =>
              match stepv with
              | .number stepQ =>
                if stepQ = 0 then
                  (some (rtErr "For loop step must be a non-zero number"), st3)
                else
                  forLoop fuel (st3.currentEnvSet var (.number startQ)) var endQ stepQ body
              | _ => (some (rtErr "For loop step must be a non-zero number"), st3)
        | _, _ => (some (rtErr "For loop start/end must be numbers"), st2)

def forLoop : Nat → Interp → String → ℚ → ℚ → List Stmt → Option Err × Interp
  | 0, st, _, _, _, _ => (some .fuelOut, st)
  | fuel + 1, st, var, endQ, step, body =>
    match st.currentEnvGet var with
    | .number cur =>
      if (step > 0 ∧ cur > endQ) ∨ (step < 0 ∧ cur < endQ) then (none, st)
      else
        match runStmts fuel st body with
        | (none, st') =>
          forLoop fuel (st'.currentEnvSet var (.number (cur + step))) var endQ step body
        | (some .brkSig, st') => (none, st')
        | (some .contSig, st') =>
          forLoop fuel (st'.currentEnvSet var (.number (cur + step))) var endQ step body
        | (some e, st') => (some e, st')
    | _ => (some (rtErr "For loop variable must remain numeric"), st)

def execForEach : Nat → Interp → String → String → Expr → List Stmt →
    Option Err × Interp
  | 0, st, _, _, _, _ => (some .fuelOut, st)
  | fuel + 1, st, var, ivar, iterable, body =>
    match evalExpr fuel st iterable with
    | (.error err, st') => (some err, st')
    | (.ok iv, st') =>
      match iv with
      | .array ref => forEachArr fuel st' var ivar (st'.getArr ref) 0 body
      | .map ref =>
        forEachMap fuel st' var ivar (sortStrings ((st'.getMap ref).map Prod.fst)) 0 body
      | _ => (some (rtErr "foreach expects an array or map"), st')

def forEachArr : Nat → Interp → String → String → List Value → Nat → List Stmt →
    Option Err × Interp
  | 0, st, _, _, _, _, _ => (some .fuelOut, st)
  | fuel + 1, st, var, ivar, elems, idx, body =>
    match elems with
    | [] => (none, st)
    | el :: rest =>
      let st1 := st.currentEnvSet var el
      let st2 := if ivar ≠ "" then st1.currentEnvSet ivar (.number (idx : ℚ)) else st1
      match runStmts fuel st2 body with
      | (none, st3) => forEachArr fuel st3 var ivar rest (idx + 1) body
      | (some .brkSig, st3) => (none, st3)
      | (some .contSig, st3) => forEachArr fuel st3 var ivar rest (idx + 1) body
      | (some e, st3) => (some e, st3)

def forEachMap : Nat → Interp → String → String → List String → Nat → List Stmt →
    Option Err × Interp
  | 0, st, _, _, _, _, _ => (some .fuelOut, st)
  | fuel + 1, st, var, ivar, keys, idx, body =>
    match keys with
    | [] => (none, st)
    | k :: rest =>
      let st1 := st.currentEnvSet var (.str k)
      let st2 := if ivar ≠ "" then st1.currentEnvSet ivar (.number (idx : ℚ)) else st1
      match runStmts fuel st2 body with
      | (none, st3) => forEachMap fuel st3 var ivar rest (idx + 1) body
      | (some .brkSig, st3) => (none, st3)
      | (some .contSig, st3) => forEachMap fuel st3 var ivar rest (idx + 1) body
      | (some e, st3) => (some e, st3)

def execIndexAssign : Nat → Interp → String → Expr → Expr → Option Err × Interp
  | 0, st, _, _, _ => (some .fuelOut, st)
  | fuel + 1, st, name, idxE, valE =>
    match st.findVar name with
    | none => (some (rtErr ("Undefined variable " ++ quoteKey name)), st)
    | some (containerVal, inFrame) =>
      match evalExpr fuel st idxE with
      | (.error err, st') => (some err, st')
      | (.ok iv, st') =>
        match evalExpr fuel st' valE with
        | (.error err, st2) => (some err, st2)
        | (.ok newVal, st2) =>
          match containerVal with
          | .array ref =>
            match toIndex iv with
            | .error msg => (some (rtErr msg), st2)
            | .ok idx =>
              let elems := st2.getArr ref
              if idx < 0 ∨ idx ≥ (elems.length : Int) then
                (some (rtErr ("Array index out of bounds (index " ++ toString idx ++
                  ", size " ++ toString elems.length ++ ")")), st2)
              else
                let st3 := st2.setArr ref (elems.set idx.toNat newVal)
                (none, st3.setVarIn inFrame name containerVal)
          | .map ref =>
            match iv with
            | .str key =>
              let st3 := st2.setMap ref (aupsert (st2.getMap ref) key newVal)
              (none, st3.setVarIn inFrame name containerVal)
            | _ => (some (rtErr "Map key must be a string"), st2)
          | _ => (some (rtErr "Index assignment requires an array or map"), st2)

def execOpen : Nat → Interp → Int → Expr → Expr → Option Err × Interp
  | 0, st, _, _, _ => (some .fuelOut, st)
  | fuel + 1, st, handle, pathE, modeE =>
    if handle ≤ 0 then (some (rtErr "open handle must be a positive integer"), st)
    else
      match evalExpr fuel st pathE with
      | (.error err, st') => (some err, st')
      | (.ok pathV, st') =>
        match evalExpr fuel st' modeE with
        | (.error err, st2) => (some err, st2)
        | (.ok modeV, st2) =>
          match pathV with
          | .str path =>
            match modeV with
            | .str modeRaw =>
              let mode := toLowerS (trimSpace modeRaw)
              -- if already open, close first; then delete both table entries
              let st3 :=
                match alookup st2.files handle with
                | some oldPath => { st2 with closedLog := st2.closedLog ++ [(handle, oldPath)] }
                | none => st2
              let st4 := { st3 with
                            files := aerase st3.files handle,
                            readers := aerase st3.readers handle }
              if mode = "w" then
                let dir := pathDir path
                let st5 := if dir ≠ "" ∧ dir ≠ "." then
                    { st4 with fsDirs := st4.fsDirs ++ [dir] } else st4
                let st6 := { st5 with fsFiles := aupsert st5.fsFiles path [] }
                (none, { st6 with files := aupsert st6.files handle path })
              else if mode = "a" then
                let dir := pathDir path
                let st5 := if dir ≠ "" ∧ dir ≠ "." then
                    { st4 with fsDirs := st4.fsDirs ++ [dir] } else st4
                let st6 :=
                  match alookup st5.fsFiles path with
                  | some _ => st5
                  | none => { st5 with fsFiles := aupsert st5.fsFiles path [] }
                (none, { st6 with files := aupsert st6.files handle path })
              else if mode = "r" then
                match alookup st4.fsFiles path with
                | some _ => (none, { st4 with files := aupsert st4.files handle path })
                | none =>
                  (some (rtErr ("open failed: open " ++ path ++
                    ": no such file or directory")), st4)
              else
                (some (rtErr "open mode must be \"r\", \"w\", or \"a\""), st4)
            | _ =>
              (some (rtErr "open mode must be a string (\"r\", \"w\", or \"a\")"), st2)
          | _ => (some (rtErr "open path must be a string"), st2)

def execPrintHandle : Nat → Interp → Int → Expr → Option Err × Interp
  | 0, st, _, _ => (some .fuelOut, st)
  | fuel + 1, st, handle, e =>
    match alookup st.files handle with
    | none =>
      (some (rtErr ("print failed: handle #" ++ toString handle ++ " is not open")), st)
    | some path =>
      match evalExpr fuel st e with
      | (.error err, st') => (some err, st')
      | (.ok v, st') =>
        let line := st'.render v
        let old := (alookup st'.fsFiles path).getD []
        (none, { st' with fsFiles := aupsert st'.fsFiles path (old ++ [line]) })

def execImport : Nat → Interp → String → Option Err × Interp
  | 0, st, _ => (some .fuelOut, st)
  | fuel + 1, st, raw =>
    let rp := st.resolveImportPath raw st.filename
    match (alookup st.modules rp.1).getD .modNone with
    | .modLoaded => (none, st)
    | .modLoading => (some (rtErr (st.circularImportMessage rp.1)), st)
    | .modNone =>
      if !st.fileExists rp.1 then
        (some (rtErr (importNotFoundMessage raw rp.2)), st)
      else
        let prog := (alookup st.importFs rp.1).getD []
        let prevFile := st.filename
        let st1 := { st with
                      modules := aupsert st.modules rp.1 .modLoading,
                      moduleStack := st.moduleStack ++ [rp.1],
                      filename := rp.1 }
        match runStmts fuel st1 prog with
        | (runErr, st2) =>
          let st3 := { st2 with
                        filename := prevFile,
                        moduleStack := st2.moduleStack.dropLast }
          match runErr with
          | some e => (some e, { st3 with modules := aupsert st3.modules rp.1 .modNone })
          | none => (none, { st3 with modules := aupsert st3.modules rp.1 .modLoaded })

end

/-! ## Association-list and state-helper lemmas -/

theorem alookup_aupsert_self {κ α : Type} [DecidableEq κ] (m : List (κ × α)) (k : κ) (v : α) :
    alookup (aupsert m k v) k = some v := by
  induction m with
  | nil => simp [aupsert, alookup]
  | cons p rest ih =>
    obtain ⟨k0, v0⟩ := p
    by_cases h : k0 = k <;> simp [aupsert, alookup, h, ih]

theorem alookup_aupsert_ne {κ α : Type} [DecidableEq κ] (m : List (κ × α)) (k k0 : κ) (v : α)
    (h : k0 ≠ k) : alookup (aupsert m k v) k0 = alookup m k0 := by
  have h2 : ¬k = k0 := fun he => h he.symm
  induction m with
  | nil => simp [aupsert, alookup, h2]
  | cons p rest ih =>
    obtain ⟨k1, v1⟩ := p
    by_cases h1 : k1 = k
    · subst h1
      simp [aupsert, alookup, h2]
    · by_cases h3 : k1 = k0 <;> simp [aupsert, alookup, h, h1, h3, ih]

/-- Field preservation: `currentEnvSet` never changes the shape of the
locals stack, the call stack, or any non-environment field. -/
theorem currentEnvSet_fields (st : Interp) (n : String) (v : Value) :
    (st.currentEnvSet n v).locals.length = st.locals.length ∧
    (st.currentEnvSet n v).callStack = st.callStack ∧
    (st.currentEnvSet n v).output = st.output ∧
    (st.currentEnvSet n v).funcs = st.funcs := by
  unfold Interp.currentEnvSet
  match h : st.locals with
  | [] => simp [h]
  | f :: rest => simp [h]

theorem currentEnvSet_locals_len (st : Interp) (n : String) (v : Value) :
    (st.currentEnvSet n v).locals.length = st.locals.length :=
  (currentEnvSet_fields st n v).1

theorem currentEnvSet_callStack (st : Interp) (n : String) (v : Value) :
    (st.currentEnvSet n v).callStack = st.callStack :=
  (currentEnvSet_fields st n v).2.1

theorem setVarIn_locals_len (st : Interp) (b : Bool) (n : String) (v : Value) :
    (st.setVarIn b n v).locals.length = st.locals.length := by
  unfold Interp.setVarIn
  match b, h : st.locals with
  | true, [] => simp [h]
  | true, f :: rest => simp [h]
  | false, _ => simp

theorem setVarIn_callStack (st : Interp) (b : Bool) (n : String) (v : Value) :
    (st.setVarIn b n v).callStack = st.callStack := by
  unfold Interp.setVarIn
  match b, h : st.locals with
  | true, [] => simp [h]
  | true, f :: rest => simp [h]
  | false, _ => simp

theorem allocArr_locals (st : Interp) (es : List Value) :
    (st.allocArr es).2.locals = st.locals ∧ (st.allocArr es).2.callStack = st.callStack := by
  simp [Interp.allocArr]

theorem allocMap_locals (st : Interp) (es : List (String × Value)) :
    (st.allocMap es).2.locals = st.locals ∧ (st.allocMap es).2.callStack = st.callStack := by
  simp [Interp.allocMap]

theorem setArr_locals (st : Interp) (r : Nat) (es : List Value) :
    (st.setArr r es).locals = st.locals ∧ (st.setArr r es).callStack = st.callStack := by
  simp [Interp.setArr]

theorem setMap_locals (st : Interp) (r : Nat) (es : List (String × Value)) :
    (st.setMap r es).locals = st.locals ∧ (st.setMap r es).callStack = st.callStack := by
  simp [Interp.setMap]

/-- Reading back the value just written through `currentEnv()`. -/
theorem currentEnvGet_set_self (st : Interp) (n : String) (v : Value) :
    (st.currentEnvSet n v).currentEnvGet n = v := by
  unfold Interp.currentEnvSet Interp.currentEnvGet
  match h : st.locals with
  | [] => simp [h, alookup_aupsert_self]
  | f :: rest => simp [h, alookup_aupsert_self]

/-- Writing one name through `currentEnv()` leaves every other name alone. -/
theorem currentEnvGet_set_ne (st : Interp) (n m : String) (v : Value) (h : m ≠ n) :
    (st.currentEnvSet n v).currentEnvGet m = st.currentEnvGet m := by
  unfold Interp.currentEnvSet Interp.currentEnvGet
  match hl : st.locals with
  | [] => simp [hl, alookup_aupsert_ne _ _ _ _ h]
  | f :: rest => simp [hl, alookup_aupsert_ne _ _ _ _ h]

/-! ## C2: break / continue outside a loop -/

/-- Does an outcome carry a `RuntimeError` (as opposed to no error, or a
bare signal such as `BreakSignal` / `ContinueSignal`)? -/
def isRuntimeError : Option Err → Bool
  | some (.rt _) => true
  | _ => false

/-- C2 counterexample: a top-level `break`, outside any loop, does NOT
produce a runtime error as the spec requires — `execStmt` returns the bare
`BreakSignal`, which escapes `Run` (`runStmts`) to the caller. -/
theorem C2_counterexample :
    (runStmts 2 (Interp.newWithSource "main.bpl") [Stmt.breakStmt]).1 = some .brkSig ∧
    isRuntimeError (runStmts 2 (Interp.newWithSource "main.bpl") [Stmt.breakStmt]).1
      = false := by
  decide

/-- C2 (amended): `execStmt` returns `BreakSignal` / `ContinueSignal`
unconditionally — there is no check for an enclosing loop — and the signal
propagates out of `Run` (`runStmts`) unchanged, and escapes a user-function
call as the error outcome `BreakSignal` itself, never as a `RuntimeError`
flagged at the statement. -/
theorem C2_break_continue_escape (fuel : Nat) (st : Interp) (rest : List Stmt)
    (fnName : String) :
    execStmt (fuel + 1) st .breakStmt = (some .brkSig, st) ∧
    execStmt (fuel + 1) st .continueStmt = (some .contSig, st) ∧
    runStmts (fuel + 2) st (Stmt.breakStmt :: rest) = (some .brkSig, st) ∧
    runStmts (fuel + 2) st (Stmt.continueStmt :: rest) = (some .contSig, st) ∧
    (evalUserCall (fuel + 4) st fnName [] [Stmt.breakStmt] []).1 = .error .brkSig ∧
    isRuntimeError (some .brkSig) = false ∧ isRuntimeError (some .contSig) = false :=
  ⟨rfl, rfl, rfl, rfl, rfl, rfl, rfl⟩

/-! ## C4: the import state machine -/

/-- The state in which an imported module's program runs: marked
`modLoading`, pushed on the module stack, filename switched. -/
def importEntryState (st : Interp) (p : String) : Interp :=
  { st with
      modules := aupsert st.modules p .modLoading,
      moduleStack := st.moduleStack ++ [p],
      filename := p }

/-- C4: per canonical resolved path, `execImport` is a state machine:
`Loaded` → return immediately with no effect; `Loading` → cycle error
listing the import stack; unvisited and missing → not-found error;
unvisited and present → the module's program runs, and an error clears the
state back to `modNone` (a later import retries) while success marks it
`modLoaded`. -/
theorem C4_import_state_machine (fuel : Nat) (st : Interp) (raw : String) :
    ((alookup st.modules (st.resolveImportPath raw st.filename).1).getD .modNone
        = .modLoaded →
      execImport (fuel + 1) st raw = (none, st)) ∧
    ((alookup st.modules (st.resolveImportPath raw st.filename).1).getD .modNone
        = .modLoading →
      execImport (fuel + 1) st raw =
        (some (rtErr (st.circularImportMessage (st.resolveImportPath raw st.filename).1)),
          st)) ∧
    ((alookup st.modules (st.resolveImportPath raw st.filename).1).getD .modNone
        = .modNone →
      st.fileExists (st.resolveImportPath raw st.filename).1 = false →
      execImport (fuel + 1) st raw =
        (some (rtErr (importNotFoundMessage raw (st.resolveImportPath raw st.filename).2)),
          st)) ∧
    (∀ e st2,
      (alookup st.modules (st.resolveImportPath raw st.filename).1).getD .modNone
        = .modNone →
      st.fileExists (st.resolveImportPath raw st.filename).1 = true →
      runStmts fuel (importEntryState st (st.resolveImportPath raw st.filename).1)
          ((alookup st.importFs (st.resolveImportPath raw st.filename).1).getD [])
        = (some e, st2) →
      (execImport (fuel + 1) st raw).1 = some e ∧
      alookup (execImport (fuel + 1) st raw).2.modules
          (st.resolveImportPath raw st.filename).1 = some .modNone) ∧
    (∀ st2,
      (alookup st.modules (st.resolveImportPath raw st.filename).1).getD .modNone
        = .modNone →
      st.fileExists (st.resolveImportPath raw st.filename).1 = true →
      runStmts fuel (importEntryState st (st.resolveImportPath raw st.filename).1)
          ((alookup st.importFs (st.resolveImportPath raw st.filename).1).getD [])
        = (none, st2) →
      (execImport (fuel + 1) st raw).1 = none ∧
      alookup (execImport (fuel + 1) st raw).2.modules
          (st.resolveImportPath raw st.filename).1 = some .modLoaded) := by
  refine ⟨fun h => ?_, fun h => ?_, fun h h2 => ?_, fun e st2 h h2 h3 => ?_,
    fun st2 h h2 h3 => ?_⟩
  · simp only [execImport, h]
  · simp only [execImport, h]
  · simp only [execImport, h, h2]
    simp
  · simp only [importEntryState] at h3
    simp only [execImport, h, h2]
    simp only [Bool.not_true, Bool.false_eq_true, if_false, h3]
    exact ⟨trivial, alookup_aupsert_self _ _ _⟩
  · simp only [importEntryState] at h3
    simp only [execImport, h, h2]
    simp only [Bool.not_true, Bool.false_eq_true, if_false, h3]
    exact ⟨trivial, alookup_aupsert_self _ _ _⟩

/-- A state in which module `lib.bpl` is already loaded. -/
def importLoadedSt : Interp :=
  { Interp.newWithSource "main.bpl" with modules := [("lib.bpl", ModState.modLoaded)] }

/-- C4 witness: at a concrete state whose module table marks `lib.bpl`
as `Loaded`, importing it again returns immediately with no effect. -/
theorem C4_witness :
    execImport 3 importLoadedSt "lib.bpl" = (none, importLoadedSt) :=
  (C4_import_state_machine 2 importLoadedSt "lib.bpl").1 (by decide)

/-! ## C6: `substr` -/

deriving instance DecidableEq for Except


/-- C6 counterexample: `substr("ab", 1, 5)` has `start + n` beyond the end
of the string, which the spec calls an out-of-range error — but
`substrRunes` CLAMPS the end and the builtin returns `"b"`. -/
theorem C6_counterexample :
    (callBuiltin (Interp.newWithSource "main.bpl") "substr"
        [.str "ab", .number 1, .number 5]).1
      = .ok (.str "b") := by
  decide

/-- C6 (amended): `substr` operates on code points;
`substr(s, 0, len(s)) = s`; the result never has more than `n` code
points; `start` outside `[0, len(s)]` and negative `n` are runtime errors
(`substr() out of range`); but `start + n` past the end CLAMPS to the end
of the string instead of erroring, and the builtin maps `substrRunes`
results / `none` to the value / the error. -/
theorem C6_substr_code_points (s : String) (start n : Int) (st : Interp) :
    substrRunes s 0 (some (runeLen s : Int)) = some s ∧
    (∀ t, substrRunes s start (some n) = some t → (runeLen t : Int) ≤ n) ∧
    ((start < 0 ∨ start > (runeLen s : Int)) → substrRunes s start (some n) = none) ∧
    (n < 0 → substrRunes s start (some n) = none) ∧
    (0 ≤ start → start ≤ (runeLen s : Int) → (runeLen s : Int) ≤ start + n → 0 ≤ n →
      substrRunes s start (some n) = some (String.mk (s.data.drop start.toNat))) ∧
    (callBuiltin st "substr" [.str s, .number (start : ℚ), .number (n : ℚ)] =
      match substrRunes s start (some n) with
      | some t => (.ok (.str t), st)
      | none => (.error (rtErr "substr() out of range"), st)) := by
  refine ⟨?_, ?_, ?_, ?_, ?_, ?_⟩
  · unfold substrRunes runeLen
    rw [if_neg (by omega)]
    show (if ((s.data.length : Nat) : Int) < 0 then none
      else some (String.mk ((s.data.take
        (min (0 + ((s.data.length : Nat) : Int)).toNat s.data.length)).drop
          (0 : Int).toNat))) = some s
    rw [if_neg (by omega)]
    have h1 : (0 + ((s.data.length : Nat) : Int)).toNat = s.data.length := by omega
    rw [h1, min_self, List.take_length]
    show some (String.mk (s.data.drop 0)) = some s
    rw [List.drop_zero]
  · intro t ht
    unfold substrRunes at ht
    by_cases h1 : start < 0 ∨ start > (s.data.length : Int)
    · rw [if_pos (by exact_mod_cast h1)] at ht; cases ht
    · rw [if_neg (by exact_mod_cast h1)] at ht
      simp only at ht
      by_cases h2 : n < 0
      · rw [if_pos h2] at ht; cases ht
      · rw [if_neg h2] at ht
        simp only [Option.some.injEq] at ht
        subst ht
        unfold runeLen
        simp only [List.length_drop, List.length_take]
        push_cast
        omega
  · intro h
    unfold runeLen at h
    unfold substrRunes
    rw [if_pos h]
  · intro h
    unfold substrRunes
    by_cases h1 : start < 0 ∨ start > (s.data.length : Int)
    · rw [if_pos h1]
    · rw [if_neg h1]
      simp only
      rw [if_pos h]
  · intro h1 h2 h3 h4
    unfold runeLen at h2 h3
    unfold substrRunes
    rw [if_neg (by omega)]
    simp only [if_neg (by omega : ¬n < 0)]
    have hstop : min (start + n).toNat s.data.length = s.data.length := by omega
    rw [hstop, List.take_length]
  · have hsd : ((start : ℚ)).den = 1 := Rat.den_intCast start
    have hnd : ((n : ℚ)).den = 1 := Rat.den_intCast n
    have hsn : ((start : ℚ)).num = start := Rat.num_intCast start
    have hnn : ((n : ℚ)).num = n := Rat.num_intCast n
    simp only [callBuiltin, hsd, hnd, hsn, hnn, ne_eq]
    simp

/-- C6 witness: the clamping branch at a concrete call —
`substr("ab", 1, 5)` yields `"b"`. -/
theorem C6_witness :
    substrRunes "ab" 1 (some 5) = some "b" :=
  ((C6_substr_code_points "ab" 1 5 (Interp.newWithSource "w")).2.2.2.2.1
    (by decide) (by decide) (by decide) (by decide)).trans (by decide)

/-! ## C7: `open` modes -/

/-- C7 counterexample: the mode string `" W "` differs from `"w"` in case
and surrounding whitespace, which the spec calls a runtime error — but
`execOpen` lowercases and trims it first and the open succeeds. -/
theorem C7_counterexample :
    (runStmts 10 (Interp.newWithSource "main.bpl")
      [.openStmt 1 (.strLit "x.txt") (.strLit " W ")]).1 = none := by
  decide

/-- C7 (amended): the mode is compared only after `TrimSpace` and
`ToLower`; a normalized mode outside `r`/`w`/`a` is a runtime error; for
`w` and `a` a non-trivial parent directory of the path is created; and
opening a handle that is already open closes the previously open file
first (recorded in `closedLog`). -/
theorem C7_open_mode_normalized (fuel : Nat) (st st1 st2 : Interp) (h : Int)
    (pathE modeE : Expr) (path modeRaw : String) :
    0 < h →
    evalExpr fuel st pathE = (.ok (.str path), st1) →
    evalExpr fuel st1 modeE = (.ok (.str modeRaw), st2) →
    ((toLowerS (trimSpace modeRaw) ≠ "r" → toLowerS (trimSpace modeRaw) ≠ "w" →
      toLowerS (trimSpace modeRaw) ≠ "a" →
      (execOpen (fuel + 1) st h pathE modeE).1 =
        some (rtErr "open mode must be \"r\", \"w\", or \"a\"")) ∧
     (toLowerS (trimSpace modeRaw) = "w" →
      (execOpen (fuel + 1) st h pathE modeE).1 = none ∧
      (pathDir path ≠ "" → pathDir path ≠ "." →
        pathDir path ∈ (execOpen (fuel + 1) st h pathE modeE).2.fsDirs) ∧
      (∀ oldPath, alookup st2.files h = some oldPath →
        (execOpen (fuel + 1) st h pathE modeE).2.closedLog =
          st2.closedLog ++ [(h, oldPath)])) ∧
     (toLowerS (trimSpace modeRaw) = "a" →
      (execOpen (fuel + 1) st h pathE modeE).1 = none ∧
      (pathDir path ≠ "" → pathDir path ≠ "." →
        pathDir path ∈ (execOpen (fuel + 1) st h pathE modeE).2.fsDirs))) := by
  intro hh hp hm
  have hne : ¬h ≤ 0 := by omega
  refine ⟨fun hr hw ha => ?_, fun hw => ?_, fun ha => ?_⟩
  · rcases halo : alookup st2.files h with _ | oldPath <;>
      simp [execOpen, hp, hm, hne, halo, hr, hw, ha]
  · simp only [execOpen, hp, hm, hne, if_false, hw]
    rcases halo : alookup st2.files h with _ | oldPath
    · simp only [halo]
      refine ⟨rfl, fun hd1 hd2 => ?_, fun old hold => Option.noConfusion hold⟩
      simp only [if_true]
      rw [if_pos (And.intro hd1 hd2)]
      simp
    · simp only [halo]
      refine ⟨rfl, fun hd1 hd2 => ?_, fun old hold => ?_⟩
      · simp only [if_true]
        rw [if_pos (And.intro hd1 hd2)]
        simp
      · injection hold with he
        subst he
        simp only [if_true]
        split <;> rfl
  · have hw : toLowerS (trimSpace modeRaw) ≠ "w" := by rw [ha]; decide
    simp only [execOpen, hp, hm, hne, if_false, ha, hw]
    rcases halo : alookup st2.files h with _ | oldPath <;>
      simp only [halo] <;>
      refine ⟨rfl, fun hd1 hd2 => ?_⟩ <;>
      simp only [if_true] <;>
      rw [if_pos (And.intro hd1 hd2)] <;>
      rcases hfs : alookup st2.fsFiles path with _ | _ <;>
      simp [hfs]

/-- C7 witness: at a concrete open statement with mode `" W "`, the open
succeeds (the normalized mode is `"w"`). -/
theorem C7_witness :
    (execOpen 3 (Interp.newWithSource "m") 1 (.strLit "out/f.txt") (.strLit " W ")).1
      = none :=
  ((C7_open_mode_normalized 2 (Interp.newWithSource "m") (Interp.newWithSource "m")
      (Interp.newWithSource "m") 1 (.strLit "out/f.txt") (.strLit " W ")
      "out/f.txt" " W " (by decide) rfl rfl).2.1 (by decide)).1

/-! ## C9: locals-frame and call-stack depth preservation

`evalUserCall` pushes one local frame and one call-stack entry and pops
both through a `defer`, on every exit path.  No other evaluator function
touches the shape of either stack, so every evaluator function preserves
both lengths; this is proved by one simultaneous induction on fuel. -/

/-- Both stack depths of `b` equal those of `a`. -/
def framePreserved (a b : Interp) : Prop :=
  b.locals.length = a.locals.length ∧ b.callStack.length = a.callStack.length

theorem fp_refl (st : Interp) : framePreserved st st := ⟨rfl, rfl⟩

theorem fp_trans {a b c : Interp} (h1 : framePreserved a b) (h2 : framePreserved b c) :
    framePreserved a c := ⟨h2.1.trans h1.1, h2.2.trans h1.2⟩

theorem fp_currentEnvSet (st : Interp) (n : String) (v : Value) :
    framePreserved st (st.currentEnvSet n v) :=
  ⟨currentEnvSet_locals_len st n v, by rw [currentEnvSet_callStack]⟩

theorem fp_setVarIn (st : Interp) (b : Bool) (n : String) (v : Value) :
    framePreserved st (st.setVarIn b n v) :=
  ⟨setVarIn_locals_len st b n v, by rw [setVarIn_callStack]⟩

theorem fp_allocArr (st : Interp) (es : List Value) :
    framePreserved st (st.allocArr es).2 :=
  ⟨by rw [(allocArr_locals st es).1], by rw [(allocArr_locals st es).2]⟩

theorem fp_allocMap (st : Interp) (es : List (String × Value)) :
    framePreserved st (st.allocMap es).2 :=
  ⟨by rw [(allocMap_locals st es).1], by rw [(allocMap_locals st es).2]⟩

theorem fp_setArr (st : Interp) (r : Nat) (es : List Value) :
    framePreserved st (st.setArr r es) :=
  ⟨by rw [(setArr_locals st r es).1], by rw [(setArr_locals st r es).2]⟩

theorem fp_setMap (st : Interp) (r : Nat) (es : List (String × Value)) :
    framePreserved st (st.setMap r es) :=
  ⟨by rw [(setMap_locals st r es).1], by rw [(setMap_locals st r es).2]⟩

theorem fp_foldl_envSet (ps : List (String × Value)) :
    ∀ st : Interp, framePreserved st
      (ps.foldl (fun acc p => acc.currentEnvSet p.1 p.2) st) := by
  induction ps with
  | nil => exact fun st => fp_refl st
  | cons p rest ih =>
    intro st
    exact fp_trans (fp_currentEnvSet st p.1 p.2) (ih (st.currentEnvSet p.1 p.2))

theorem fp_of_eq {α : Type} {st : Interp} {p : α × Interp} {r : α} {st' : Interp}
    (hfp : framePreserved st p.2) (heq : p = (r, st')) : framePreserved st st' := by
  rw [heq] at hfp; exact hfp

theorem fp_getHandleReader (st : Interp) (h : Int) :
    ∀ p, st.getHandleReader h = some p → framePreserved st p.2 := by
  intro p heq
  unfold Interp.getHandleReader at heq
  repeat' split at heq
  all_goals cases heq
  all_goals exact ⟨rfl, rfl⟩

theorem fp_callBuiltin (st : Interp) (name : String) (args : List Value) :
    framePreserved st (callBuiltin st name args).2 := by
  unfold callBuiltin
  repeat' split
  all_goals try exact ⟨rfl, rfl⟩
  all_goals try exact fp_allocArr _ _
  all_goals try (rename_i heq; exact fp_of_eq (fp_allocArr _ _) heq)
  all_goals try (rename_i heq; exact fp_getHandleReader _ _ _ heq)
  all_goals try (rename_i heq; exact fp_trans (fp_getHandleReader _ _ _ heq) ⟨rfl, rfl⟩)
  all_goals try (split <;> exact ⟨rfl, rfl⟩)
  all_goals simp only []
  all_goals (repeat' split) <;> exact ⟨rfl, rfl⟩

theorem preserveAll : ∀ fuel : Nat,
    (∀ st e, framePreserved st (evalExpr fuel st e).2) ∧
    (∀ st es, framePreserved st (evalExprList fuel st es).2) ∧
    (∀ st acc entries, framePreserved st (evalMapEntries fuel st acc entries).2) ∧
    (∀ st c args, framePreserved st (evalCall fuel st c args).2) ∧
    (∀ st f ps body args, framePreserved st (evalUserCall fuel st f ps body args).2) ∧
    (∀ st s, framePreserved st (execStmt fuel st s).2) ∧
    (∀ st ss, framePreserved st (runStmts fuel st ss).2) ∧
    (∀ st cond body, framePreserved st (whileLoop fuel st cond body).2) ∧
    (∀ st v sE eE so body, framePreserved st (execFor fuel st v sE eE so body).2) ∧
    (∀ st v endQ step body, framePreserved st (forLoop fuel st v endQ step body).2) ∧
    (∀ st v iv it body, framePreserved st (execForEach fuel st v iv it body).2) ∧
    (∀ st v iv elems idx body,
      framePreserved st (forEachArr fuel st v iv elems idx body).2) ∧
    (∀ st v iv keys idx body,
      framePreserved st (forEachMap fuel st v iv keys idx body).2) ∧
    (∀ st nm iE vE, framePreserved st (execIndexAssign fuel st nm iE vE).2) ∧
    (∀ st h pE mE, framePreserved st (execOpen fuel st h pE mE).2) ∧
    (∀ st h e, framePreserved st (execPrintHandle fuel st h e).2) ∧
    (∀ st raw, framePreserved st (execImport fuel st raw).2) := by
  intro fuel
  induction fuel with
  | zero =>
    exact ⟨fun _ _ => fp_refl _, fun _ _ => fp_refl _, fun _ _ _ => fp_refl _,
      fun _ _ _ => fp_refl _, fun _ _ _ _ _ => fp_refl _, fun _ _ => fp_refl _,
      fun _ _ => fp_refl _, fun _ _ _ => fp_refl _, fun _ _ _ _ _ _ => fp_refl _,
      fun _ _ _ _ _ => fp_refl _, fun _ _ _ _ _ => fp_refl _,
      fun _ _ _ _ _ _ => fp_refl _, fun _ _ _ _ _ _ => fp_refl _,
      fun _ _ _ _ => fp_refl _, fun _ _ _ _ => fp_refl _, fun _ _ _ => fp_refl _,
      fun _ _ => fp_refl _⟩
  | succ n ih =>
    obtain ⟨ihExpr, ihList, ihMap, ihCall, ihUser, ihStmt, ihRun, ihWhile, ihFor,
      ihLoop, ihFE, ihFEA, ihFEM, ihIdx, ihOpen, ihPH, ihImp⟩ := ih
    refine ⟨?_, ?_, ?_, ?_, ?_, ?_, ?_, ?_, ?_, ?_, ?_, ?_, ?_, ?_, ?_, ?_, ?_⟩
    · -- evalExpr
      intro st e
      cases e with
      | strLit s => exact fp_refl st
      | numLit q => exact fp_refl st
      | boolLit b => exact fp_refl st
      | ident name =>
        simp only [evalExpr]
        (repeat' split) <;> exact fp_refl st
      | call c args => exact ihCall st c args
      | arrayLit elems =>
        simp only [evalExpr]
        rcases hs : evalExprList n st elems with ⟨r, st1⟩
        have h1 := fp_of_eq (ihList st elems) hs
        cases r with
        | error err => exact h1
        | ok vs => exact fp_trans h1 (fp_allocArr st1 vs)
      | mapLit entries =>
        simp only [evalExpr]
        rcases hs : evalMapEntries n st [] entries with ⟨r, st1⟩
        have h1 := fp_of_eq (ihMap st [] entries) hs
        cases r with
        | error err => exact h1
        | ok m => exact fp_trans h1 (fp_allocMap st1 m)
      | index left idxE =>
        simp only [evalExpr]
        rcases h1e : evalExpr n st left with ⟨r1, st1⟩
        have h1 := fp_of_eq (ihExpr st left) h1e
        cases r1 with
        | error e1 => exact h1
        | ok lv =>
          simp only []
          rcases h2e : evalExpr n st1 idxE with ⟨r2, st2⟩
          have h12 := fp_trans h1 (fp_of_eq (ihExpr st1 idxE) h2e)
          cases r2 with
          | error e2 => exact h12
          | ok iv =>
            simp only []
            (repeat' split) <;> exact h12
      | unary op right =>
        simp only [evalExpr]
        rcases h1e : evalExpr n st right with ⟨r1, st1⟩
        have h1 := fp_of_eq (ihExpr st right) h1e
        cases r1 with
        | error e1 => exact h1
        | ok rv =>
          simp only []
          (repeat' split) <;> exact h1
      | binary left op right =>
        simp only [evalExpr]
        by_cases hop : op = "and" ∨ op = "or"
        · rw [if_pos hop]
          rcases h1e : evalExpr n st left with ⟨r1, st1⟩
          have h1 := fp_of_eq (ihExpr st left) h1e
          cases r1 with
          | error e1 => exact h1
          | ok lv =>
            simp only []
            cases lv <;> try exact h1
            rename_i lb
            simp only []
            by_cases hand : op = "and"
            · rw [if_pos hand]
              cases lb with
              | false => exact h1
              | true =>
                rcases h2e : evalExpr n st1 right with ⟨r2, st2⟩
                have h12 := fp_trans h1 (fp_of_eq (ihExpr st1 right) h2e)
                cases r2 with
                | error e2 => exact h12
                | ok rv => cases rv <;> exact h12
            · rw [if_neg hand]
              cases lb with
              | true => exact h1
              | false =>
                rcases h2e : evalExpr n st1 right with ⟨r2, st2⟩
                have h12 := fp_trans h1 (fp_of_eq (ihExpr st1 right) h2e)
                cases r2 with
                | error e2 => exact h12
                | ok rv => cases rv <;> exact h12
        · rw [if_neg hop]
          rcases h1e : evalExpr n st left with ⟨r1, st1⟩
          have h1 := fp_of_eq (ihExpr st left) h1e
          cases r1 with
          | error e1 => exact h1
          | ok lv =>
            simp only []
            rcases h2e : evalExpr n st1 right with ⟨r2, st2⟩
            have h12 := fp_trans h1 (fp_of_eq (ihExpr st1 right) h2e)
            cases r2 with
            | error e2 => exact h12
            | ok rv =>
              simp only []
              (repeat' split) <;>
                first
                  | exact h12
                  | exact fp_trans h12 (fp_allocArr st2 _)
    · -- evalExprList
      intro st es
      cases es with
      | nil => exact fp_refl st
      | cons e rest =>
        simp only [evalExprList]
        rcases h1e : evalExpr n st e with ⟨r1, st1⟩
        have h1 := fp_of_eq (ihExpr st e) h1e
        cases r1 with
        | error e1 => exact h1
        | ok v =>
          simp only []
          rcases h2e : evalExprList n st1 rest with ⟨r2, st2⟩
          have h12 := fp_trans h1 (fp_of_eq (ihList st1 rest) h2e)
          cases r2 <;> exact h12
    · -- evalMapEntries
      intro st acc entries
      cases entries with
      | nil => exact fp_refl st
      | cons p rest =>
        obtain ⟨k, ve⟩ := p
        simp only [evalMapEntries]
        rcases h1e : evalExpr n st ve with ⟨r1, st1⟩
        have h1 := fp_of_eq (ihExpr st ve) h1e
        cases r1 with
        | error e1 => exact h1
        | ok v => exact fp_trans h1 (ihMap st1 (aupsert acc k v) rest)
    · -- evalCall
      intro st c args
      simp only [evalCall]
      rcases hf : alookup st.funcs c with _ | pb
      · simp only []
        rcases hl : evalExprList n st args with ⟨r, st1⟩
        have h1 := fp_of_eq (ihList st args) hl
        cases r with
        | error e1 => exact h1
        | ok vs => exact fp_trans h1 (fp_callBuiltin st1 c vs)
      · obtain ⟨params, body⟩ := pb
        exact ihUser st c params body args
    · -- evalUserCall
      intro st f ps body args
      simp only [evalUserCall]
      split
      · exact fp_refl st
      · rcases hl : evalExprList n st args with ⟨r, st1⟩
        have h1 := fp_of_eq (ihList st args) hl
        cases r with
        | error e1 => exact h1
        | ok argVals =>
          simp only []
          have hpre := fp_foldl_envSet (ps.zip argVals)
            ({ st1 with callStack := st1.callStack ++ [f] }.pushLocals)
          have h4 := ihRun
            (List.foldl (fun acc p => acc.currentEnvSet p.1 p.2)
              ({ st1 with callStack := st1.callStack ++ [f] }.pushLocals)
              (ps.zip argVals)) body
          have e2 : ({ st1 with callStack := st1.callStack ++ [f] }.pushLocals).locals.length
              = st1.locals.length + 1 := by
            simp [Interp.pushLocals]
          have e2c : ({ st1 with callStack := st1.callStack ++ [f] }.pushLocals).callStack.length
              = st1.callStack.length + 1 := by
            simp [Interp.pushLocals]
          have hfin : framePreserved st
              { (runStmts n (List.foldl (fun acc p => acc.currentEnvSet p.1 p.2)
                  ({ st1 with callStack := st1.callStack ++ [f] }.pushLocals)
                  (ps.zip argVals)) body).2.popLocals with
                callStack := (runStmts n (List.foldl (fun acc p => acc.currentEnvSet p.1 p.2)
                  ({ st1 with callStack := st1.callStack ++ [f] }.pushLocals)
                  (ps.zip argVals)) body).2.callStack.dropLast } := by
            constructor
            · have e3 := h1.1
              have e4 := h4.1
              have e5 := hpre.1
              simp only [Interp.popLocals, List.length_tail]
              omega
            · have e3 := h1.2
              have e4 := h4.2
              have e5 := hpre.2
              simp only [List.length_dropLast]
              omega
          split <;> exact hfin
    · -- execStmt
      intro st s
      cases s with
      | importStmt path => exact ihImp st path
      | funcDecl nm params body => exact ⟨rfl, rfl⟩
      | breakStmt => exact fp_refl st
      | continueStmt => exact fp_refl st
      | indexAssign nm iE vE => exact ihIdx st nm iE vE
      | openStmt h pE mE => exact ihOpen st h pE mE
      | printHandle h e => exact ihPH st h e
      | whileStmt cond body => exact ihWhile st cond body
      | forStmt v sE eE so body => exact ihFor st v sE eE so body
      | forEach v iv it body => exact ihFE st v iv it body
      | closeStmt h =>
        simp only [execStmt]
        (repeat' split) <;> exact ⟨rfl, rfl⟩
      | ret e =>
        simp only [execStmt]
        split
        · exact fp_refl st
        · rcases h1e : evalExpr n st e with ⟨r1, st1⟩
          have h1 := fp_of_eq (ihExpr st e) h1e
          cases r1 <;> exact h1
      | assign nm e =>
        simp only [execStmt]
        rcases h1e : evalExpr n st e with ⟨r1, st1⟩
        have h1 := fp_of_eq (ihExpr st e) h1e
        cases r1 with
        | error e1 => exact h1
        | ok v => exact fp_trans h1 (fp_currentEnvSet st1 nm v)
      | exprStmt e =>
        simp only [execStmt]
        rcases h1e : evalExpr n st e with ⟨r1, st1⟩
        have h1 := fp_of_eq (ihExpr st e) h1e
        cases r1 <;> exact h1
      | print e =>
        simp only [execStmt]
        rcases h1e : evalExpr n st e with ⟨r1, st1⟩
        have h1 := fp_of_eq (ihExpr st e) h1e
        cases r1 with
        | error e1 => exact h1
        | ok v => exact fp_trans h1 ⟨rfl, rfl⟩
      | ifStmt cond thenB elseB =>
        simp only [execStmt]
        rcases h1e : evalExpr n st cond with ⟨r1, st1⟩
        have h1 := fp_of_eq (ihExpr st cond) h1e
        cases r1 with
        | error e1 => exact h1
        | ok cv =>
          simp only []
          cases cv <;> try exact h1
          rename_i b
          cases b with
          | true => exact fp_trans h1 (ihRun st1 thenB)
          | false => exact fp_trans h1 (ihRun st1 elseB)
    · -- runStmts
      intro st ss
      cases ss with
      | nil => exact fp_refl st
      | cons s rest =>
        simp only [runStmts]
        rcases hs : execStmt n st s with ⟨err, st1⟩
        have h1 := fp_of_eq (ihStmt st s) hs
        cases err with
        | some e => exact h1
        | none => exact fp_trans h1 (ihRun st1 rest)
    · -- whileLoop
      intro st cond body
      simp only [whileLoop]
      rcases h1e : evalExpr n st cond with ⟨r1, st1⟩
      have h1 := fp_of_eq (ihExpr st cond) h1e
      cases r1 with
      | error e1 => exact h1
      | ok cv =>
        simp only []
        cases cv <;> try exact h1
        rename_i b
        cases b with
        | false => exact h1
        | true =>
          rcases hr : runStmts n st1 body with ⟨err, st2⟩
          have h12 := fp_trans h1 (fp_of_eq (ihRun st1 body) hr)
          cases err with
          | none => exact fp_trans h12 (ihWhile st2 cond body)
          | some e =>
            cases e <;>
              first
                | exact h12
                | exact fp_trans h12 (ihWhile st2 cond body)
    · -- execFor
      intro st v sE eE so body
      simp only [execFor]
      rcases h1e : evalExpr n st sE with ⟨r1, st1⟩
      have h1 := fp_of_eq (ihExpr st sE) h1e
      cases r1 with
      | error e1 => exact h1
      | ok sv =>
        simp only []
        rcases h2e : evalExpr n st1 eE with ⟨r2, st2⟩
        have h12 := fp_trans h1 (fp_of_eq (ihExpr st1 eE) h2e)
        cases r2 with
        | error e2 => exact h12
        | ok ev =>
          simp only []
          cases sv <;> cases ev <;> try exact h12
          rename_i startQ endQ
          cases so with
          | none =>
            exact fp_trans h12
              (fp_trans (fp_currentEnvSet st2 v _) (ihLoop _ v endQ _ body))
          | some se =>
            simp only []
            rcases h3e : evalExpr n st2 se with ⟨r3, st3⟩
            have h123 := fp_trans h12 (fp_of_eq (ihExpr st2 se) h3e)
            cases r3 with
            | error e3 => exact h123
            | ok stepv =>
              simp only []
              cases stepv <;> try exact h123
              rename_i stepQ
              simp only []
              by_cases hz : stepQ = 0
              · rw [if_pos hz]
                exact h123
              · rw [if_neg hz]
                exact fp_trans h123
                  (fp_trans (fp_currentEnvSet st3 v _) (ihLoop _ v endQ stepQ body))
    · -- forLoop
      intro st v endQ step body
      simp only [forLoop]
      rcases hg : st.currentEnvGet v with _ | cur | _ | _ | _ | _ <;> try exact fp_refl st
      simp only []
      split
      · exact fp_refl st
      · rcases hr : runStmts n st body with ⟨err, st1⟩
        have h1 := fp_of_eq (ihRun st body) hr
        cases err with
        | none =>
          exact fp_trans h1
            (fp_trans (fp_currentEnvSet st1 v _) (ihLoop _ v endQ step body))
        | some e =>
          cases e <;>
            first
              | exact h1
              | exact fp_trans h1
                  (fp_trans (fp_currentEnvSet st1 v _) (ihLoop _ v endQ step body))
    · -- execForEach
      intro st v iv it body
      simp only [execForEach]
      rcases h1e : evalExpr n st it with ⟨r1, st1⟩
      have h1 := fp_of_eq (ihExpr st it) h1e
      cases r1 with
      | error e1 => exact h1
      | ok itv =>
        simp only []
        cases itv <;> try exact h1
        · rename_i ref
          exact fp_trans h1 (ihFEA st1 v iv (st1.getArr ref) 0 body)
        · rename_i ref
          exact fp_trans h1
            (ihFEM st1 v iv (sortStrings ((st1.getMap ref).map Prod.fst)) 0 body)
    · -- forEachArr
      intro st v iv elems idx body
      cases elems with
      | nil => exact fp_refl st
      | cons el rest =>
        simp only [forEachArr]
        have hB : framePreserved st
            (if iv ≠ "" then (st.currentEnvSet v el).currentEnvSet iv (.number (idx : ℚ))
             else st.currentEnvSet v el) := by
          split
          · exact fp_trans (fp_currentEnvSet st v el) (fp_currentEnvSet _ iv _)
          · exact fp_currentEnvSet st v el
        rcases hr : runStmts n
            (if iv ≠ "" then (st.currentEnvSet v el).currentEnvSet iv (.number (idx : ℚ))
             else st.currentEnvSet v el) body with ⟨err, st1⟩
        have h1 := fp_trans hB (fp_of_eq (ihRun _ body) hr)
        cases err with
        | none => exact fp_trans h1 (ihFEA st1 v iv rest (idx + 1) body)
        | some e =>
          cases e <;>
            first
              | exact h1
              | exact fp_trans h1 (ihFEA st1 v iv rest (idx + 1) body)
    · -- forEachMap
      intro st v iv keys idx body
      cases keys with
      | nil => exact fp_refl st
      | cons k rest =>
        simp only [forEachMap]
        have hB : framePreserved st
            (if iv ≠ "" then
              (st.currentEnvSet v (.str k)).currentEnvSet iv (.number (idx : ℚ))
             else st.currentEnvSet v (.str k)) := by
          split
          · exact fp_trans (fp_currentEnvSet st v _) (fp_currentEnvSet _ iv _)
          · exact fp_currentEnvSet st v _
        rcases hr : runStmts n
            (if iv ≠ "" then
              (st.currentEnvSet v (.str k)).currentEnvSet iv (.number (idx : ℚ))
             else st.currentEnvSet v (.str k)) body with ⟨err, st1⟩
        have h1 := fp_trans hB (fp_of_eq (ihRun _ body) hr)
        cases err with
        | none => exact fp_trans h1 (ihFEM st1 v iv rest (idx + 1) body)
        | some e =>
          cases e <;>
            first
              | exact h1
              | exact fp_trans h1 (ihFEM st1 v iv rest (idx + 1) body)
    · -- execIndexAssign
      intro st nm iE vE
      simp only [execIndexAssign]
      rcases hf : st.findVar nm with _ | cvb
      · exact fp_refl st
      · obtain ⟨containerVal, inFrame⟩ := cvb
        simp only []
        rcases h1e : evalExpr n st iE with ⟨r1, st1⟩
        have h1 := fp_of_eq (ihExpr st iE) h1e
        cases r1 with
        | error e1 => exact h1
        | ok iv =>
          simp only []
          rcases h2e : evalExpr n st1 vE with ⟨r2, st2⟩
          have h12 := fp_trans h1 (fp_of_eq (ihExpr st1 vE) h2e)
          cases r2 with
          | error e2 => exact h12
          | ok newVal =>
            simp only []
            (repeat' split) <;>
              first
                | exact h12
                | exact fp_trans h12 (fp_trans (fp_setArr _ _ _) (fp_setVarIn _ _ _ _))
                | exact fp_trans h12 (fp_trans (fp_setMap _ _ _) (fp_setVarIn _ _ _ _))
    · -- execOpen
      intro st h pE mE
      simp only [execOpen]
      split
      · exact fp_refl st
      · rcases h1e : evalExpr n st pE with ⟨r1, st1⟩
        have h1 := fp_of_eq (ihExpr st pE) h1e
        cases r1 with
        | error e1 => exact h1
        | ok pathV =>
          simp only []
          rcases h2e : evalExpr n st1 mE with ⟨r2, st2⟩
          have h12 := fp_trans h1 (fp_of_eq (ihExpr st1 mE) h2e)
          cases r2 with
          | error e2 => exact h12
          | ok modeV =>
            simp only []
            (repeat' split) <;> exact fp_trans h12 ⟨rfl, rfl⟩
    · -- execPrintHandle
      intro st h e
      simp only [execPrintHandle]
      rcases hf : alookup st.files h with _ | path
      · exact fp_refl st
      · simp only []
        rcases h1e : evalExpr n st e with ⟨r1, st1⟩
        have h1 := fp_of_eq (ihExpr st e) h1e
        cases r1 with
        | error e1 => exact h1
        | ok v => exact fp_trans h1 ⟨rfl, rfl⟩
    · -- execImport
      intro st raw
      simp only [execImport]
      rcases hm2 : (alookup st.modules (st.resolveImportPath raw st.filename).1).getD
          .modNone with _ | _ | _
      · simp only []
        split
        · exact fp_refl st
        · have h1 := ihRun
            ({ st with
                modules := aupsert st.modules
                  (st.resolveImportPath raw st.filename).1 .modLoading,
                moduleStack := st.moduleStack ++ [(st.resolveImportPath raw st.filename).1],
                filename := (st.resolveImportPath raw st.filename).1 })
            ((alookup st.importFs (st.resolveImportPath raw st.filename).1).getD [])
          split <;> exact fp_trans (fp_trans ⟨rfl, rfl⟩ h1) ⟨rfl, rfl⟩
      · exact fp_refl st
      · exact fp_refl st

/-- C9: a user-function call always restores both the locals-frame stack
depth and the call-stack length, whatever the outcome (return value,
runtime error, stray break/continue signal, or fuel exhaustion): the
frame pushed on entry and the diagnostic name pushed on the call stack
are popped on every exit path. -/
theorem C9_user_call_stack_balance (fuel : Nat) (st : Interp) (fnName : String)
    (params : List String) (body : List Stmt) (args : List Expr) :
    (evalUserCall fuel st fnName params body args).2.locals.length = st.locals.length ∧
    (evalUserCall fuel st fnName params body args).2.callStack.length
      = st.callStack.length :=
  (preserveAll fuel).2.2.2.2.1 st fnName params body args

/-! ## C1: foreach over a map -/

theorem findVar_set_self (st : Interp) (n : String) (v : Value) :
    ∃ b, (st.currentEnvSet n v).findVar n = some (v, b) := by
  unfold Interp.currentEnvSet Interp.findVar
  match h : st.locals with
  | [] => exact ⟨false, by simp [alookup_aupsert_self]⟩
  | f :: rest => exact ⟨true, by simp [alookup_aupsert_self]⟩

theorem findVar_set_ne (st : Interp) (n m : String) (v : Value) (h : m ≠ n) :
    (st.currentEnvSet n v).findVar m = st.findVar m := by
  unfold Interp.currentEnvSet Interp.findVar
  match hl : st.locals with
  | [] => simp [alookup_aupsert_ne _ _ _ _ h]
  | f :: rest => simp [alookup_aupsert_ne _ _ _ _ h]

theorem render_number (st : Interp) (q : ℚ) : st.render (.number q) = renderNum q := rfl

theorem render_str (st : Interp) (s : String) : st.render (.str s) = s := rfl

/-- The observing loop body: one `Print` of `index_var + value_var`, which
appends `render(i) ++ k` to stdout on each iteration. -/
def obsBody (var ivar : String) : List Stmt :=
  [.print (.binary (.ident ivar) "+" (.ident var))]

theorem obs_print_run (f : Nat) (stB : Interp) (var ivar : String) (q : ℚ) (s : String)
    (hiv : ∃ b, stB.findVar ivar = some (.number q, b))
    (hkv : ∃ b, stB.findVar var = some (.str s, b)) :
    runStmts (f + 4) stB (obsBody var ivar) =
      (none, { stB with output := stB.output ++ [renderNum q ++ s] }) := by
  obtain ⟨b1, hiv⟩ := hiv
  obtain ⟨b2, hkv⟩ := hkv
  simp only [obsBody, runStmts, execStmt, evalExpr, hiv, hkv]
  simp [render_number, render_str]

/-- The lines the observing body prints: position (from `idx`) and key. -/
def obsLines : Nat → List String → List String
  | _, [] => []
  | idx, k :: rest => (renderNum (idx : ℚ) ++ k) :: obsLines (idx + 1) rest

theorem forEachMapObs (var ivar : String) (hvi : var ≠ ivar) (hiv : ivar ≠ "") :
    ∀ (keys : List String) (fuel : Nat) (st : Interp) (idx : Nat),
      keys.length + 5 ≤ fuel →
      (forEachMap fuel st var ivar keys idx (obsBody var ivar)).1 = none ∧
      (forEachMap fuel st var ivar keys idx (obsBody var ivar)).2.output =
        st.output ++ obsLines idx keys := by
  intro keys
  induction keys with
  | nil =>
    intro fuel st idx hf
    obtain ⟨m, rfl⟩ : ∃ m, fuel = m + 1 := ⟨fuel - 1, by omega⟩
    exact ⟨rfl, by simp [forEachMap, obsLines]⟩
  | cons k rest ih =>
    intro fuel st idx hf
    obtain ⟨m, rfl⟩ : ∃ m, fuel = m + 5 := ⟨fuel - 5, by simp at hf; omega⟩
    have hB2 : ∃ b, ((st.currentEnvSet var (.str k)).currentEnvSet ivar
        (.number (idx : ℚ))).findVar var = some (.str k, b) := by
      rw [findVar_set_ne _ ivar var _ hvi]
      exact findVar_set_self st var (.str k)
    have hrun := obs_print_run m
      ((st.currentEnvSet var (.str k)).currentEnvSet ivar (.number (idx : ℚ)))
      var ivar (idx : ℚ) k
      (findVar_set_self (st.currentEnvSet var (.str k)) ivar (.number (idx : ℚ))) hB2
    have hout : ((st.currentEnvSet var (.str k)).currentEnvSet ivar
        (.number (idx : ℚ))).output = st.output := by
      rw [(currentEnvSet_fields _ ivar _).2.2.1, (currentEnvSet_fields _ var _).2.2.1]
    simp only [forEachMap]
    rw [if_pos hiv]
    rw [hrun]
    have hih := ih (m + 4)
      { (st.currentEnvSet var (.str k)).currentEnvSet ivar (.number (idx : ℚ)) with
        output := ((st.currentEnvSet var (.str k)).currentEnvSet ivar
          (.number (idx : ℚ))).output ++ [renderNum (idx : ℚ) ++ k] }
      (idx + 1) (by simp at hf ⊢; omega)
    refine ⟨hih.1, hih.2.trans ?_⟩
    simp [hout, obsLines]

/-- C1: `foreach` over a map iterates the keys in lexicographically sorted
order (a sorted permutation of the map's key set), binds the value
variable to each string key and the index variable to its zero-based
position: with the observing body, iteration `i` over sorted key `kᵢ`
prints `i ++ kᵢ`. -/
theorem C1_foreach_map_sorted (fuel : Nat) (st st2 : Interp) (var ivar : String)
    (iterable : Expr) (ref : Nat)
    (hvi : var ≠ ivar) (hiv : ivar ≠ "")
    (heval : evalExpr fuel st iterable = (.ok (.map ref), st2))
    (hfuel : ((st2.getMap ref).map Prod.fst).length + 5 ≤ fuel) :
    List.Pairwise strLeP (sortStrings ((st2.getMap ref).map Prod.fst)) ∧
    (sortStrings ((st2.getMap ref).map Prod.fst)).Perm ((st2.getMap ref).map Prod.fst) ∧
    (execForEach (fuel + 1) st var ivar iterable (obsBody var ivar)).1 = none ∧
    (execForEach (fuel + 1) st var ivar iterable (obsBody var ivar)).2.output =
      st2.output ++ obsLines 0 (sortStrings ((st2.getMap ref).map Prod.fst)) := by
  have hperm : (sortStrings ((st2.getMap ref).map Prod.fst)).Perm
      ((st2.getMap ref).map Prod.fst) := List.perm_insertionSort _ _
  have hlen : (sortStrings ((st2.getMap ref).map Prod.fst)).length + 5 ≤ fuel := by
    rw [hperm.length_eq]; exact hfuel
  have hobs := forEachMapObs var ivar hvi hiv
    (sortStrings ((st2.getMap ref).map Prod.fst)) fuel st2 0 hlen
  refine ⟨List.sorted_insertionSort _ _, hperm, ?_, ?_⟩
  · simp only [execForEach, heval]
    exact hobs.1
  · simp only [execForEach, heval]
    exact hobs.2

/-- A state holding the map `{"b": 2, "a": 1}` in variable `m`. -/
def c1St : Interp :=
  { Interp.newWithSource "m" with
      globals := [("m", Value.map 0)],
      maps := [[("b", Value.number 2), ("a", Value.number 1)]] }

/-- C1 witness: over the concrete map `{"b": 2, "a": 1}` the observing
body prints `0a` then `1b` — keys sorted, zero-based positions. -/
theorem C1_witness :
    (execForEach 11 c1St "k" "i" (.ident "m") (obsBody "k" "i")).2.output
      = ["0a", "1b"] := by
  have h := C1_foreach_map_sorted 10 c1St c1St "k" "i" (.ident "m") 0
    (by decide) (by decide) rfl (by decide)
  exact h.2.2.2.trans (by decide)

/-! ## C5: for-loop iteration count -/

theorem findVar_nil_locals (st : Interp) (n : String) (hloc : st.locals = []) :
    st.findVar n = (alookup st.globals n).map (·, false) := by
  simp [Interp.findVar, hloc]

theorem currentEnvSet_locals_nil (st : Interp) (n : String) (v : Value)
    (h : st.locals = []) :
    (st.currentEnvSet n v).locals = [] ∧
    (st.currentEnvSet n v).globals = aupsert st.globals n v := by
  simp [Interp.currentEnvSet, h]

/-- The counting loop body `c = c + 1`, used to observe how many times a
loop body runs. -/
def countBody : List Stmt := [.assign "c" (.binary (.ident "c") "+" (.numLit 1))]

theorem count_body_run (f : Nat) (st : Interp) (cVal : ℚ)
    (hc : ∃ b, st.findVar "c" = some (.number cVal, b)) :
    runStmts (f + 4) st countBody =
      (none, st.currentEnvSet "c" (.number (cVal + 1))) := by
  obtain ⟨b1, hc⟩ := hc
  simp only [countBody, runStmts, execStmt, evalExpr, hc]
  simp

/-- Core counting lemma: with step ≠ 0, a loop whose variable starts at
`cur` runs its body exactly `(⌊(endQ − cur)/step⌋ + 1).toNat` times (that
is, `max 0 (⌊(end − start)/step⌋ + 1)`), terminating without error. -/
theorem forLoopCount (v : String) (hv : v ≠ "c") (endQ step : ℚ) (hstep : step ≠ 0) :
    ∀ (cnt : Nat) (fuel : Nat) (st : Interp) (cur cVal : ℚ),
      st.locals = [] →
      alookup st.globals v = some (.number cur) →
      alookup st.globals "c" = some (.number cVal) →
      (⌊(endQ - cur) / step⌋ + 1).toNat = cnt →
      cnt + 5 ≤ fuel →
      (forLoop fuel st v endQ step countBody).1 = none ∧
      alookup (forLoop fuel st v endQ step countBody).2.globals "c"
        = some (.number (cVal + cnt)) := by
  intro cnt
  induction cnt with
  | zero =>
    intro fuel st cur cVal hloc hv2 hc hcnt hf
    obtain ⟨m, rfl⟩ : ∃ m, fuel = m + 1 := ⟨fuel - 1, by omega⟩
    have hget : st.currentEnvGet v = .number cur := by
      simp [Interp.currentEnvGet, hloc, hv2]
    have hx : (endQ - cur) / step < 0 := by
      have hfl : ⌊(endQ - cur) / step⌋ < (0 : ℤ) := by omega
      simpa using Int.floor_lt.mp hfl
    have hcross : (step > 0 ∧ cur > endQ) ∨ (step < 0 ∧ cur < endQ) := by
      rcases div_neg_iff.mp hx with ⟨hp, hn⟩ | ⟨hn2, hp2⟩
      · right
        constructor
        · exact hn
        · linarith
      · left
        constructor
        · exact hp2
        · linarith
    simp only [forLoop, hget]
    rw [if_pos hcross]
    exact ⟨rfl, by simpa using hc⟩
  | succ k ih =>
    intro fuel st cur cVal hloc hv2 hc hcnt hf
    obtain ⟨m, rfl⟩ : ∃ m, fuel = m + 5 := ⟨fuel - 5, by omega⟩
    have hget : st.currentEnvGet v = .number cur := by
      simp [Interp.currentEnvGet, hloc, hv2]
    have hnn : (0 : ℚ) ≤ (endQ - cur) / step := by
      have h0 : (0 : ℤ) ≤ ⌊(endQ - cur) / step⌋ := by omega
      exact_mod_cast Int.le_floor.mp h0
    have hncross : ¬((step > 0 ∧ cur > endQ) ∨ (step < 0 ∧ cur < endQ)) := by
      rintro (⟨hp, hgt⟩ | ⟨hn, hlt⟩)
      · have : (endQ - cur) / step < 0 := div_neg_of_neg_of_pos (by linarith) hp
        linarith
      · have : (endQ - cur) / step < 0 := div_neg_of_pos_of_neg (by linarith) hn
        linarith
    have hfind : st.findVar "c" = some (.number cVal, false) := by
      rw [findVar_nil_locals st "c" hloc, hc]
      rfl
    have hbody := count_body_run m st cVal ⟨false, hfind⟩
    have hset1 := currentEnvSet_locals_nil st "c" (.number (cVal + 1)) hloc
    have hset2 := currentEnvSet_locals_nil (st.currentEnvSet "c" (.number (cVal + 1)))
      v (.number (cur + step)) hset1.1
    have hloc3 : ((st.currentEnvSet "c" (.number (cVal + 1))).currentEnvSet
        v (.number (cur + step))).locals = [] := hset2.1
    have hv3 : alookup ((st.currentEnvSet "c" (.number (cVal + 1))).currentEnvSet
        v (.number (cur + step))).globals v = some (.number (cur + step)) := by
      rw [hset2.2]
      exact alookup_aupsert_self _ _ _
    have hc3 : alookup ((st.currentEnvSet "c" (.number (cVal + 1))).currentEnvSet
        v (.number (cur + step))).globals "c" = some (.number (cVal + 1)) := by
      rw [hset2.2, alookup_aupsert_ne _ _ _ _ (Ne.symm hv), hset1.2]
      exact alookup_aupsert_self _ _ _
    have hcnt3 : (⌊(endQ - (cur + step)) / step⌋ + 1).toNat = k := by
      have hdiv : (endQ - (cur + step)) / step = (endQ - cur) / step - 1 := by
        rw [show endQ - (cur + step) = (endQ - cur) - step by ring, sub_div,
          div_self hstep]
      rw [hdiv, Int.floor_sub_one]
      omega
    have hrec := ih (m + 4)
      ((st.currentEnvSet "c" (.number (cVal + 1))).currentEnvSet v (.number (cur + step)))
      (cur + step) (cVal + 1) hloc3 hv3 hc3 hcnt3 (by omega)
    simp only [forLoop, hget]
    rw [if_neg hncross]
    rw [hbody]
    refine ⟨hrec.1, hrec.2.trans ?_⟩
    have : (cVal + 1) + (k : ℚ) = cVal + ((k + 1 : Nat) : ℚ) := by
      push_cast
      ring
    rw [this]

/-- C5: for-loop semantics.  With numeric start and end: an omitted step
defaults to `+1` when start ≤ end and `-1` otherwise; an explicit step
that is not a number, or is zero, raises the runtime error; a non-zero
numeric step enters the loop; and the loop with the counting body
`c = c + 1` terminates without error having run the body exactly
`max 0 (⌊(end − start)/step⌋ + 1)` times (`Int.toNat` realizes the
`max 0`). -/
theorem C5_for_loop_count (fuel : Nat) (st st1 st2 : Interp) (v : String)
    (startE endE : Expr) (startQ endQ : ℚ)
    (hs : evalExpr fuel st startE = (.ok (.number startQ), st1))
    (he : evalExpr fuel st1 endE = (.ok (.number endQ), st2)) :
    (∀ B, execFor (fuel + 1) st v startE endE none B =
      forLoop fuel (st2.currentEnvSet v (.number startQ)) v endQ
        (if startQ > endQ then -1 else 1) B) ∧
    (∀ se st3 B sv, evalExpr fuel st2 se = (.ok sv, st3) →
      (∀ q : ℚ, sv ≠ .number q) →
      execFor (fuel + 1) st v startE endE (some se) B =
        (some (rtErr "For loop step must be a non-zero number"), st3)) ∧
    (∀ se st3 B, evalExpr fuel st2 se = (.ok (.number 0), st3) →
      execFor (fuel + 1) st v startE endE (some se) B =
        (some (rtErr "For loop step must be a non-zero number"), st3)) ∧
    (∀ se st3 (step : ℚ) B, step ≠ 0 →
      evalExpr fuel st2 se = (.ok (.number step), st3) →
      execFor (fuel + 1) st v startE endE (some se) B =
        forLoop fuel (st3.currentEnvSet v (.number startQ)) v endQ step B) ∧
    (∀ (step cVal : ℚ), v ≠ "c" → step ≠ 0 → st2.locals = [] →
      alookup st2.globals "c" = some (.number cVal) →
      (⌊(endQ - startQ) / step⌋ + 1).toNat + 5 ≤ fuel →
      (forLoop fuel (st2.currentEnvSet v (.number startQ)) v endQ step
          countBody).1 = none ∧
      alookup (forLoop fuel (st2.currentEnvSet v (.number startQ)) v endQ step
          countBody).2.globals "c"
        = some (.number (cVal + ((⌊(endQ - startQ) / step⌋ + 1).toNat : ℚ)))) := by
  refine ⟨fun B => ?_, fun se st3 B sv hse hnum => ?_, fun se st3 B hse => ?_,
    fun se st3 step B hnz hse => ?_, fun step cVal hv hnz hloc hc hfuel => ?_⟩
  · simp only [execFor, hs, he]
  · cases sv with
    | number q => exact absurd rfl (hnum q)
    | null => simp only [execFor, hs, he, hse]
    | str s => simp only [execFor, hs, he, hse]
    | bool b => simp only [execFor, hs, he, hse]
    | array r => simp only [execFor, hs, he, hse]
    | map r => simp only [execFor, hs, he, hse]
  · simp only [execFor, hs, he, hse]
    simp
  · simp only [execFor, hs, he, hse]
    rw [if_neg hnz]
  · have hset := currentEnvSet_locals_nil st2 v (.number startQ) hloc
    exact forLoopCount v hv endQ step hnz _ fuel
      (st2.currentEnvSet v (.number startQ)) startQ cVal hset.1
      (by rw [hset.2]; exact alookup_aupsert_self _ _ _)
      (by rw [hset.2, alookup_aupsert_ne _ _ _ _ (Ne.symm hv)]; exact hc)
      rfl hfuel

/-- A state with loop counter `c` initialized to `0`. -/
def c5St : Interp :=
  { Interp.newWithSource "m" with globals := [("c", Value.number 0)] }

section
attribute [local semireducible] Rat.add Rat.sub Rat.mul Rat.inv Rat.ofScientific

/-- C5 witness: `for i = 1 to 5` (step defaulted, counting body) runs its
body exactly 5 times. -/
theorem C5_witness :
    (forLoop 10 (c5St.currentEnvSet "i" (.number 1)) "i" 5 1 countBody).1 = none ∧
    alookup (forLoop 10 (c5St.currentEnvSet "i" (.number 1)) "i" 5 1
        countBody).2.globals "c" = some (.number 5) := by
  have h := (C5_for_loop_count 10 c5St c5St c5St "i" (.numLit 1) (.numLit 5) 1 5
      rfl rfl).2.2.2.2 1 0 (by decide) (by decide) rfl (by decide) (by decide)
  refine ⟨h.1, h.2.trans ?_⟩
  norm_num
  decide

end

end BplPlus
